import Mathlib

/-!
# hostdb: the MariaDB predicate compiler

A shallow embedding of `MariadbWhereClauses.Stringify` (src/mariadb.go) and
theorems about the SQL text and the parameter list it returns.

Go strings are modelled by `String`, the values bound to placeholders
(`[]interface{}` holding the clause's strings) by `List String`, a `nil`
slice by `[]`, and a Go `error` by `Option String` carrying the error message
(`none` for `nil`).  `strings.Builder` is a `String` that is only appended to;
`whereBuilder.Len()` is the number of bytes of its UTF-8 encoding.
-/

namespace Hostdb

/-! ## Library functions of Go used by the compiler -/

/-- Go `strings.Contains(s, substr)`: some suffix of `s` starts with `substr`. -/
def stringsContains (s substr : String) : Bool :=
  s.data.tails.any (fun t => substr.data.isPrefixOf t)

/-- Go `unicode.ToUpper` on one rune: the ASCII letters `a`..`z`, and the two
non-ASCII runes whose upper case is an ASCII letter (U+0131 dotless i and
U+017F long s).  Every other rune is left as it is; the compiler only compares
the upper-cased operator with `IN`, and no other rune has `I` or `N` as its
upper case. -/
def toUpperRune (c : Char) : Char :=
  if 97 ≤ c.toNat ∧ c.toNat ≤ 122 then Char.ofNat (c.toNat - 32)
  else if c.toNat = 0x131 then 'I'
  else if c.toNat = 0x17F then 'S'
  else c

/-- Go `strings.ToUpper(s)`: every rune mapped by `toUpperRune`. -/
def stringsToUpper (s : String) : String :=
  ⟨s.data.map toUpperRune⟩

/-! ## Data model (src/mariadb.go, lines 31-48) -/

/-- A single argument of an SQL WHERE statement. -/
structure MariadbWhereClause where
  Relativity : String
  Key : List String
  Operator : String
  Value : List String
  deriving DecidableEq, Repr

/-- A slice of clauses, grouped by parentheses. -/
structure MariadbWhereGrouping where
  Clauses : List MariadbWhereClause
  deriving DecidableEq, Repr

/-- Groups of clauses; `Relativity` defaults to AND. -/
structure MariadbWhereClauses where
  Relativity : String
  Groups : List MariadbWhereGrouping
  deriving DecidableEq, Repr

/-- The builder and the `values` slice while `Stringify` runs. -/
abbrev Acc := String × List String

/-! ## `Stringify` (src/mariadb.go, lines 51-178) -/

/-- Lines 136-146: `for i := 0; i < len(clause.Value); i++`.  `n` is
`len(clause.Value)`, the list holds `clause.Value[i:]`. -/
def valueLoop (n : Nat) : Nat → List String → Acc → Acc
  | _, [], acc => acc
  | i, v :: rest, (b, vs) =>
    let b := b ++ "?"
    let vs := vs ++ [v]
    let b := if i + 1 < n then b ++ "," else b
    valueLoop n (i + 1) rest (b, vs)

/-- Lines 131-155: the placeholders written after `key operator `. -/
def emitValues (value : List String) (acc : Acc) : Acc :=
  if value.length > 1 then
    let (b, vs) := valueLoop value.length 0 value (acc.1 ++ "(", acc.2)
    (b ++ ") ", vs)
  else if value.length = 1 then
    (acc.1 ++ "? ", acc.2 ++ [value.headD ""])
  else acc

/-- Lines 117-158: `for _, key := range clause.Key`, with `counter` starting
at 1.  `operator` is the clause's operator after defaulting. -/
def keyLoop (operator : String) (value : List String) : Nat → List String → Acc → Acc
  | _, [], acc => acc
  | counter, key :: rest, (b, vs) =>
    let b := if counter > 1 then b ++ "OR " else b
    let b := b ++ key ++ " " ++ operator ++ " "
    keyLoop operator value (counter + 1) rest (emitValues value (b, vs))

/-- Lines 108-164: the key expansion of a clause whose operator has been
defaulted: parentheses around the keys when there is more than one. -/
def keyExpansion (clause : MariadbWhereClause) (acc : Acc) : Acc :=
  let b := if clause.Key.length > 1 then acc.1 ++ "( " else acc.1
  let (b, vs) := keyLoop clause.Operator clause.Value 1 clause.Key (b, acc.2)
  let b := if clause.Key.length > 1 then b ++ ")" else b
  (b, vs)

/-- Lines 82-164: the body of `for clauseCounter, clause := range group.Clauses`.
An error aborts the compilation. -/
def clauseBody (clauseCounter : Nat) (clause : MariadbWhereClause) (acc : Acc) :
    Except String Acc :=
  if clause.Key.length < 1 ∨
      (clause.Value.length < 1 ∧ ¬ stringsContains clause.Operator "IS N" = true) then
    .error "incomplete WHERE argument"
  else if clause.Value.length > 1 ∧ stringsToUpper clause.Operator ≠ "IN" then
    .error "tried to equate more than one value"
  else
    let clause := if clause.Relativity = "" then { clause with Relativity := "AND" } else clause
    let clause := if clause.Operator = "" then { clause with Operator := "=" } else clause
    let b := if acc.1.utf8ByteSize > 8 ∧ clauseCounter ≥ 1 then
        acc.1 ++ clause.Relativity ++ " " else acc.1
    .ok (keyExpansion clause (b, acc.2))

/-- Lines 81-165: the loop over the clauses of a grouping. -/
def clauseLoop : Nat → List MariadbWhereClause → Acc → Except String Acc
  | _, [], acc => .ok acc
  | clauseCounter, clause :: rest, acc =>
    match clauseBody clauseCounter clause acc with
    | .error e => .error e
    | .ok acc => clauseLoop (clauseCounter + 1) rest acc

/-- Lines 63-172: `for groupCounter, group := range c.Groups`.  `nGroups` is
`len(c.Groups)`; `relativity` is `c.Relativity` of the receiver copy, which the
loop overwrites with AND when it is empty. -/
def groupLoop (nGroups : Nat) :
    Nat → List MariadbWhereGrouping → String → Acc → Except String Acc
  | _, [], _, acc => .ok acc
  | groupCounter, group :: rest, relativity, (b, vs) =>
    let relativity :=
      if nGroups > 1 ∧ groupCounter ≥ 1 then
        (if relativity = "" then "AND" else relativity)
      else relativity
    let b := if nGroups > 1 ∧ groupCounter ≥ 1 then b ++ relativity ++ " " else b
    let b := if group.Clauses.length > 1 then b ++ "( " else b
    match clauseLoop 0 group.Clauses (b, vs) with
    | .error e => .error e
    | .ok (b, vs) =>
      let b := if group.Clauses.length > 1 then b ++ ") " else b
      groupLoop nGroups (groupCounter + 1) rest relativity (b, vs)

/-- The results `(whereSQL, values, err)` of `Stringify`. -/
structure StringifyResult where
  whereSQL : String
  values : List String
  err : Option String
  deriving DecidableEq, Repr

/-- `func (c MariadbWhereClauses) Stringify() (whereSQL string, values []interface{}, err error)`. -/
def MariadbWhereClauses.Stringify (c : MariadbWhereClauses) : StringifyResult :=
  if c.Groups.length < 1 then
    ⟨"", [], none⟩
  else
    match groupLoop c.Groups.length 0 c.Groups c.Relativity ("WHERE ", []) with
    | .error e => ⟨"", [], some e⟩
    | .ok (b, vs) => ⟨b, vs, none⟩

/-! ## The text and the parameters as the specification describes them -/

/-- A relativity keyword, AND when unset. -/
def relOrAnd (r : String) : String := if r = "" then "AND" else r

/-- An operator, `=` when unset. -/
def opOrEq (o : String) : String := if o = "" then "=" else o

/-- One `?` per value, separated by single commas. -/
def commaPlaceholders : List String → String
  | [] => ""
  | [_] => "?"
  | _ :: v :: rest => "?," ++ commaPlaceholders (v :: rest)

/-- The placeholders that follow `key operator `: a parenthesised run for more
than one value, `? ` for one value, nothing for none. -/
def placeholderText (value : List String) : String :=
  if value.length > 1 then "(" ++ commaPlaceholders value ++ ") "
  else if value.length = 1 then "? "
  else ""

/-- The comparison of one key: `key operator ` and the placeholders. -/
def keyText (operator : String) (value : List String) (key : String) : String :=
  key ++ " " ++ operator ++ " " ++ placeholderText value

/-- The comparisons of the keys that follow the first, each preceded by `OR `. -/
def orKeysText (operator : String) (value : List String) : List String → String
  | [] => ""
  | key :: rest => "OR " ++ keyText operator value key ++ orKeysText operator value rest

/-- The comparisons of all keys of a clause, joined by OR. -/
def keysText (operator : String) (value : List String) : List String → String
  | [] => ""
  | key :: rest => keyText operator value key ++ orKeysText operator value rest

/-- The key expansion for keys, operator and values: parenthesised when there
is more than one key, with no space after the closing parenthesis. -/
def expansionText (operator : String) (value : List String) (keys : List String) : String :=
  if keys.length > 1 then "( " ++ keysText operator value keys ++ ")"
  else keysText operator value keys

/-- The text of a clause: its key expansion with the operator defaulted. -/
def clauseText (cl : MariadbWhereClause) : String :=
  expansionText (opOrEq cl.Operator) cl.Value cl.Key

/-- The clauses of index above 0 of a grouping, each preceded by its
relativity keyword and a space. -/
def joinedClauses : List MariadbWhereClause → String
  | [] => ""
  | cl :: rest => relOrAnd cl.Relativity ++ " " ++ clauseText cl ++ joinedClauses rest

/-- The clauses of a grouping in order. -/
def clausesText : List MariadbWhereClause → String
  | [] => ""
  | cl :: rest => clauseText cl ++ joinedClauses rest

/-- The text of a grouping: parenthesised when it has more than one clause. -/
def groupingText (g : MariadbWhereGrouping) : String :=
  if g.Clauses.length > 1 then "( " ++ clausesText g.Clauses ++ ") "
  else clausesText g.Clauses

/-- The groupings of index above 0, each preceded by the keyword `r` and a space. -/
def joinedGroupings (r : String) : List MariadbWhereGrouping → String
  | [] => ""
  | g :: rest => r ++ " " ++ groupingText g ++ joinedGroupings r rest

/-- The groupings of a clause-set in order, joined by the keyword `r`. -/
def groupingsText (r : String) : List MariadbWhereGrouping → String
  | [] => ""
  | g :: rest => groupingText g ++ joinedGroupings r rest

/-- The parameters of a clause: its full values list once per key. -/
def clauseValues (cl : MariadbWhereClause) : List String :=
  cl.Key.flatMap (fun _ => cl.Value)

/-- The parameters of a list of clauses, in order. -/
def clausesValues (cls : List MariadbWhereClause) : List String :=
  cls.flatMap clauseValues

/-- The parameters of a list of groupings, in order. -/
def groupingsValues (gs : List MariadbWhereGrouping) : List String :=
  gs.flatMap (fun g => clausesValues g.Clauses)

/-- A clause that validation rejects: no key, or no value without an operator
containing `IS N`, or more than one value with an operator that upper-cased
is not `IN`. -/
def ClauseInvalid (cl : MariadbWhereClause) : Prop :=
  cl.Key = [] ∨ (cl.Value = [] ∧ ¬ "IS N".data <:+: cl.Operator.data) ∨
    (1 < cl.Value.length ∧ stringsToUpper cl.Operator ≠ "IN")

instance (cl : MariadbWhereClause) : Decidable (ClauseInvalid cl) := by
  unfold ClauseInvalid
  infer_instance

/-- Every clause of every grouping passes validation. -/
def AllValid (gs : List MariadbWhereGrouping) : Prop :=
  ∀ g ∈ gs, ∀ cl ∈ g.Clauses, ¬ ClauseInvalid cl

/-- Number of `?` characters of a text. -/
def questionMarks (s : String) : Nat := s.data.count '?'

/-- No key, operator or relativity of the clause contains a `?`. -/
def ClauseClean (cl : MariadbWhereClause) : Prop :=
  '?' ∉ cl.Relativity.data ∧ '?' ∉ cl.Operator.data ∧ ∀ k ∈ cl.Key, '?' ∉ k.data

/-- The error a clause makes `Stringify` return, if any: the incomplete-argument
check comes first, the more-than-one-value check second. -/
def clauseError (cl : MariadbWhereClause) : Option String :=
  if cl.Key = [] ∨ (cl.Value = [] ∧ ¬ "IS N".data <:+: cl.Operator.data) then
    some "incomplete WHERE argument"
  else if 1 < cl.Value.length ∧ stringsToUpper cl.Operator ≠ "IN" then
    some "tried to equate more than one value"
  else none

/-- The error of the first clause of a list that has one. -/
def firstError : List MariadbWhereClause → Option String
  | [] => none
  | cl :: rest =>
    match clauseError cl with
    | some e => some e
    | none => firstError rest

/-- All clauses of a clause-set in traversal order: groupings in order,
clauses in order within a grouping. -/
def allClauses (gs : List MariadbWhereGrouping) : List MariadbWhereClause :=
  gs.flatMap (fun g => g.Clauses)

/-- A clause with its unset relativity replaced by AND and its unset operator
replaced by `=`. -/
def fillClause (cl : MariadbWhereClause) : MariadbWhereClause :=
  { cl with Relativity := relOrAnd cl.Relativity, Operator := opOrEq cl.Operator }

/-- A clause-set with all defaults filled in: its relativity, and the
relativity and operator of every clause. -/
def fillDefaults (c : MariadbWhereClauses) : MariadbWhereClauses :=
  ⟨relOrAnd c.Relativity, c.Groups.map (fun g => ⟨g.Clauses.map fillClause⟩)⟩

/-! ## A call of `Stringify` on explicit memory

`Memory` holds what a call `caller.Stringify()` can read and assign.  The
receiver `c` is passed by value: its `Relativity` is a variable of the call
(`receiverRelativity`), while its `Groups` slice shares the arrays of the
caller's clause-set, so groupings and clauses are read from `caller` at every
iteration.  `clause` is the range variable of the clause loop.  Every
assignment of the source is an update of one component of the memory, and
every function returns the memory it leaves behind, also when it fails. -/

/-- The memory of a call: the caller's clause-set with the arrays behind its
slices, the receiver's own `Relativity`, the range variable `clause`, the
builder and the `values` result. -/
structure Memory where
  caller : MariadbWhereClauses
  receiverRelativity : String
  clause : MariadbWhereClause
  whereBuilder : String
  values : List String
  deriving DecidableEq, Repr

/-- Lines 82-164 on the memory, `clause` holding the element of this iteration:
the two checks, the assignments `clause.Relativity = "AND"` (line 94) and
`clause.Operator = "="` (line 98), the relativity keyword and the key
expansion.  The second component is the error, if any. -/
def clauseStep (clauseCounter : Nat) (m : Memory) : Memory × Option String :=
  if m.clause.Key.length < 1 ∨
      (m.clause.Value.length < 1 ∧ ¬ stringsContains m.clause.Operator "IS N" = true) then
    (m, some "incomplete WHERE argument")
  else if m.clause.Value.length > 1 ∧ stringsToUpper m.clause.Operator ≠ "IN" then
    (m, some "tried to equate more than one value")
  else
    let m := if m.clause.Relativity = "" then
        { m with clause := { m.clause with Relativity := "AND" } } else m
    let m := if m.clause.Operator = "" then
        { m with clause := { m.clause with Operator := "=" } } else m
    let m := if m.whereBuilder.utf8ByteSize > 8 ∧ clauseCounter ≥ 1 then
        { m with whereBuilder := m.whereBuilder ++ m.clause.Relativity ++ " " } else m
    let acc := keyExpansion m.clause (m.whereBuilder, m.values)
    ({ m with whereBuilder := acc.1, values := acc.2 }, none)

/-- Lines 81-165 on the memory: iteration `clauseCounter` of the loop over the
clauses of grouping `groupCounter`, with `fuel` iterations left.  The range
variable `clause` receives a copy of the element read from the caller's
arrays. -/
def clauseLoopM (groupCounter : Nat) : Nat → Nat → Memory → Memory × Option String
  | 0, _, m => (m, none)
  | fuel + 1, clauseCounter, m =>
    match (m.caller.Groups.getD groupCounter ⟨[]⟩).Clauses[clauseCounter]? with
    | none => (m, none)
    | some element =>
      match clauseStep clauseCounter { m with clause := element } with
      | (m, some e) => (m, some e)
      | (m, none) => clauseLoopM groupCounter fuel (clauseCounter + 1) m

/-- Lines 65-79 on the memory: the relativity keyword before a grouping of
index above 0, with `c.Relativity = "AND"` (line 67) assigning the receiver's
own field, and the opening parenthesis of a grouping with several clauses. -/
def groupOpen (nGroups groupCounter : Nat) (group : MariadbWhereGrouping) (m : Memory) :
    Memory :=
  let m :=
    if nGroups > 1 ∧ groupCounter ≥ 1 then
      let m := if m.receiverRelativity = "" then
          { m with receiverRelativity := "AND" } else m
      { m with whereBuilder := m.whereBuilder ++ m.receiverRelativity ++ " " }
    else m
  if group.Clauses.length > 1 then { m with whereBuilder := m.whereBuilder ++ "( " } else m

/-- Lines 167-171 on the memory: the closing parenthesis of a grouping with
several clauses. -/
def groupClose (group : MariadbWhereGrouping) (m : Memory) : Memory :=
  if group.Clauses.length > 1 then { m with whereBuilder := m.whereBuilder ++ ") " } else m

/-- Lines 63-172 on the memory: iteration `groupCounter` of the loop over the
groupings, with `fuel` iterations left; `group` is a copy of the element read
from the caller's arrays. -/
def groupLoopM (nGroups : Nat) : Nat → Nat → Memory → Memory × Option String
  | 0, _, m => (m, none)
  | fuel + 1, groupCounter, m =>
    match m.caller.Groups[groupCounter]? with
    | none => (m, none)
    | some group =>
      match clauseLoopM groupCounter group.Clauses.length 0
          (groupOpen nGroups groupCounter group m) with
      | (m, some e) => (m, some e)
      | (m, none) => groupLoopM nGroups fuel (groupCounter + 1) (groupClose group m)

/-- A call `caller.Stringify()`: the memory when the call returns and the
results of the call.  The receiver's `Relativity` starts as a copy of the
caller's; `clause` starts as the zero value. -/
def stringifyCall (caller : MariadbWhereClauses) : Memory × StringifyResult :=
  let m : Memory := ⟨caller, caller.Relativity, ⟨"", [], "", []⟩, "", []⟩
  if caller.Groups.length < 1 then
    (m, ⟨"", [], none⟩)
  else
    match groupLoopM caller.Groups.length caller.Groups.length 0
        { m with whereBuilder := "WHERE " } with
    | (m, some e) => (m, ⟨"", [], some e⟩)
    | (m, none) => (m, ⟨m.whereBuilder, m.values, none⟩)

/-- The receiver's relativity after lines 65-68 of `groupLoop`. -/
def openRelativity (nGroups groupCounter : Nat) (relativity : String) : String :=
  if nGroups > 1 ∧ groupCounter ≥ 1 then (if relativity = "" then "AND" else relativity)
  else relativity

/-- The builder after lines 65-79 of `groupLoop`. -/
def openBuilder (nGroups groupCounter : Nat) (group : MariadbWhereGrouping)
    (relativity b : String) : String :=
  let b := if nGroups > 1 ∧ groupCounter ≥ 1 then
      b ++ openRelativity nGroups groupCounter relativity ++ " " else b
  if group.Clauses.length > 1 then b ++ "( " else b

/-- The builder after lines 167-171 of `groupLoop`. -/
def closeBuilder (group : MariadbWhereGrouping) (b : String) : String :=
  if group.Clauses.length > 1 then b ++ ") " else b

/-- What a loop on the memory returned agrees with what the loop on the
builder and the values returns: the same error, or no error and the same
builder and values. -/
def Agrees (r : Memory × Option String) (p : Except String Acc) : Prop :=
  match p with
  | .error e => r.2 = some e
  | .ok acc => r.2 = none ∧ r.1.whereBuilder = acc.1 ∧ r.1.values = acc.2

/-! ## `MariadbLimit.Stringify` (src/mariadb.go, lines 180-193) and
`ErrorResponse.Error` (src/hostdb.go, lines 18-26) -/

/-- Go `%d`, and `%v` of an `int`: the signed decimal numeral. -/
def fmtInt (i : Int) : String := toString i

/-- LIMIT values; Go's `int` fields are taken as integers of any size. -/
structure MariadbLimit where
  Limit : Int
  Offset : Int
  deriving DecidableEq, Repr

/-- `func (l MariadbLimit) Stringify() (sql string)`. -/
def MariadbLimit.Stringify (l : MariadbLimit) : String :=
  let sql := ""
  if l.Limit ≠ 0 then
    let sql := "LIMIT " ++ fmtInt l.Limit
    if l.Offset ≠ 0 then sql ++ " OFFSET " ++ fmtInt l.Offset else sql
  else sql

/-- The response of any request which results in an error. -/
structure ErrorResponse where
  Code : Int
  Message : String
  deriving DecidableEq, Repr

/-- `func (e ErrorResponse) Error() string`: `fmt.Sprintf("%v: %v", e.Code, e.Message)`. -/
def ErrorResponse.Error (e : ErrorResponse) : String :=
  fmtInt e.Code ++ ": " ++ e.Message

/-! ## Inputs of the repository's tests (src/mariadb_test.go) -/

/-- The `basic` clause-set of `TestMariadbWhereClauses_Stringify` (lines 15-28). -/
def testBasic : MariadbWhereClauses :=
  ⟨"", [⟨[⟨"", ["type"], "=", ["test"]⟩]⟩]⟩

/-- The six clauses of the first grouping of the `_search` clause-set (lines 45-77). -/
def testSearchClauses : List MariadbWhereClause :=
  [⟨"AND", ["json_search(data, 'one', '%m2.local%')"], "IS NOT NULL", []⟩,
   ⟨"OR", ["json_search(context, 'one', '%m2.local%')"], "IS NOT NULL", []⟩,
   ⟨"OR", ["hostname"], "LIKE", ["%m2.local%"]⟩,
   ⟨"OR", ["ip"], "LIKE", ["%m2.local%"]⟩,
   ⟨"OR", ["type"], "LIKE", ["%m2.local%"]⟩,
   ⟨"OR", ["committer"], "LIKE", ["%m2.local%"]⟩]

/-- The `_search` clause-set of `TestMariadbWhereClauses_Stringify` (lines 42-89). -/
def testSearch : MariadbWhereClauses :=
  ⟨"", [⟨testSearchClauses⟩, ⟨[⟨"", ["type"], "=", ["test"]⟩]⟩]⟩

/-! ## Further inputs -/

/-- A clause-set whose second clause has two values with the operator `=`. -/
def twoValuesSecond : MariadbWhereClauses :=
  ⟨"", [⟨[⟨"", ["type"], "=", ["test"]⟩, ⟨"OR", ["ip"], "=", ["a", "b"]⟩]⟩]⟩

/-- Two one-clause groupings in which every relativity and operator is
unset. -/
def allUnset : MariadbWhereClauses :=
  ⟨"", [⟨[⟨"", ["a"], "", ["1"]⟩]⟩, ⟨[⟨"", ["b"], "", ["2"]⟩]⟩]⟩

/-- Two groupings joined by the lower-case relativity `or`; the second clause
of the first grouping has the lower-case relativity `and`. -/
def lowerCaseRelativity : MariadbWhereClauses :=
  ⟨"or", [⟨[⟨"", ["a"], "=", ["1"]⟩, ⟨"and", ["b"], "=", ["2"]⟩]⟩,
    ⟨[⟨"", ["c"], "=", ["3"]⟩]⟩]⟩

/-! ## Auxiliary facts -/

theorem stringsContains_iff (s substr : String) :
    stringsContains s substr = true ↔ substr.data <:+: s.data := by
  unfold stringsContains
  rw [List.any_eq_true, List.infix_iff_prefix_suffix]
  constructor
  · rintro ⟨t, ht, hp⟩
    exact ⟨t, List.isPrefixOf_iff_prefix.mp hp, (List.mem_tails t s.data).mp ht⟩
  · rintro ⟨t, hp, ht⟩
    exact ⟨t, (List.mem_tails t s.data).mpr ht, List.isPrefixOf_iff_prefix.mpr hp⟩

theorem byteSize_append (a b : String) :
    (a ++ b).utf8ByteSize = a.utf8ByteSize + b.utf8ByteSize := by
  show String.utf8Len (a ++ b).data = String.utf8Len a.data + String.utf8Len b.data
  rw [String.data_append, String.utf8Len_append]

theorem byteSize_pos_of_ne_empty (s : String) (h : s ≠ "") : 1 ≤ s.utf8ByteSize := by
  show 1 ≤ String.utf8Len s.data
  rcases Nat.eq_zero_or_pos (String.utf8Len s.data) with h0 | h0
  · exact absurd (String.ext (String.utf8Len_eq_zero.mp h0)) h
  · exact h0

theorem opOrEq_ne_empty (o : String) : opOrEq o ≠ "" := by
  unfold opOrEq
  split
  · decide
  · assumption

theorem relOrAnd_idem (r : String) : relOrAnd (relOrAnd r) = relOrAnd r := by
  unfold relOrAnd
  by_cases h : r = ""
  · simp [h]
  · simp [h]

theorem valueLoop_eq (n : Nat) (value : List String) :
    ∀ (i : Nat) (b : String) (vs : List String), i + value.length = n →
      valueLoop n i value (b, vs) = (b ++ commaPlaceholders value, vs ++ value) := by
  induction value with
  | nil => intro i b vs _; simp [valueLoop, commaPlaceholders]
  | cons v rest ih =>
    intro i b vs hn
    cases rest with
    | nil =>
      have hlt : ¬ i + 1 < n := by simp at hn; omega
      simp [valueLoop, commaPlaceholders, hlt]
    | cons w rest2 =>
      have hlt : i + 1 < n := by simp at hn; omega
      have hrec := ih (i + 1) (b ++ "?" ++ ",") (vs ++ [v]) (by simp at hn ⊢; omega)
      rw [valueLoop]
      simp only [hlt, if_true]
      rw [hrec]
      simp [commaPlaceholders, String.append_assoc]

theorem emitValues_eq (value : List String) (b : String) (vs : List String) :
    emitValues value (b, vs) = (b ++ placeholderText value, vs ++ value) := by
  unfold emitValues placeholderText
  by_cases h1 : value.length > 1
  · simp only [h1, if_true]
    rw [valueLoop_eq value.length value 0 (b ++ "(") vs (by simp)]
    simp [String.append_assoc]
  · by_cases h2 : value.length = 1
    · simp only [h1, h2, if_true, if_false]
      match value, h2 with
      | [v], _ => simp
    · simp only [h1, h2, if_false]
      have : value = [] := by
        cases value with
        | nil => rfl
        | cons a t => simp only [List.length_cons] at h1 h2; omega
      simp [this]

theorem keyLoop_or (operator : String) (value : List String) (keys : List String) :
    ∀ (counter : Nat) (b : String) (vs : List String), 1 < counter →
      keyLoop operator value counter keys (b, vs) =
        (b ++ orKeysText operator value keys, vs ++ keys.flatMap (fun _ => value)) := by
  induction keys with
  | nil => intro counter b vs _; simp [keyLoop, orKeysText]
  | cons key rest ih =>
    intro counter b vs hc
    rw [keyLoop]
    simp only [gt_iff_lt, hc, if_true]
    rw [emitValues_eq, ih (counter + 1) _ _ (by omega)]
    simp [orKeysText, keyText, String.append_assoc]

theorem keyLoop_first (operator : String) (value : List String) (keys : List String)
    (b : String) (vs : List String) :
    keyLoop operator value 1 keys (b, vs) =
      (b ++ keysText operator value keys, vs ++ keys.flatMap (fun _ => value)) := by
  cases keys with
  | nil => simp [keyLoop, keysText]
  | cons key rest =>
    rw [keyLoop]
    simp only [gt_iff_lt, Nat.lt_irrefl, if_false]
    rw [emitValues_eq, keyLoop_or operator value rest 2 _ _ (by omega)]
    simp [keysText, keyText, String.append_assoc]

theorem keyExpansion_eq (clause : MariadbWhereClause) (b : String) (vs : List String) :
    keyExpansion clause (b, vs) =
      (b ++ expansionText clause.Operator clause.Value clause.Key,
        vs ++ clause.Key.flatMap (fun _ => clause.Value)) := by
  unfold keyExpansion expansionText
  simp only [keyLoop_first]
  by_cases h : clause.Key.length > 1
  · simp [h, String.append_assoc]
  · simp [h]

theorem clauseInvalid_iff (cl : MariadbWhereClause) :
    ClauseInvalid cl ↔
      ((cl.Key.length < 1 ∨
          (cl.Value.length < 1 ∧ ¬ stringsContains cl.Operator "IS N" = true)) ∨
        (cl.Value.length > 1 ∧ stringsToUpper cl.Operator ≠ "IN")) := by
  unfold ClauseInvalid
  rw [stringsContains_iff, Nat.lt_one_iff, Nat.lt_one_iff, List.length_eq_zero,
    List.length_eq_zero, or_assoc]

theorem clauseBody_invalid (j : Nat) (cl : MariadbWhereClause) (acc : Acc)
    (h : ClauseInvalid cl) : ∃ e, clauseBody j cl acc = .error e := by
  rw [clauseInvalid_iff] at h
  unfold clauseBody
  rcases h with h | h
  · exact ⟨_, by rw [if_pos h]⟩
  · by_cases h1 : cl.Key.length < 1 ∨
        (cl.Value.length < 1 ∧ ¬ stringsContains cl.Operator "IS N" = true)
    · exact ⟨_, by rw [if_pos h1]⟩
    · exact ⟨_, by rw [if_neg h1, if_pos h]⟩

theorem clauseBody_valid (j : Nat) (cl : MariadbWhereClause) (b : String) (vs : List String)
    (h : ¬ ClauseInvalid cl) :
    clauseBody j cl (b, vs) =
      .ok (b ++ (if b.utf8ByteSize > 8 ∧ j ≥ 1 then relOrAnd cl.Relativity ++ " " else "")
            ++ clauseText cl, vs ++ clauseValues cl) := by
  rw [clauseInvalid_iff, not_or] at h
  unfold clauseBody
  rw [if_neg h.1, if_neg h.2]
  simp only [keyExpansion_eq]
  unfold clauseText clauseValues relOrAnd opOrEq
  by_cases hr : cl.Relativity = "" <;> by_cases ho : cl.Operator = "" <;>
    by_cases hg : b.utf8ByteSize > 8 ∧ j ≥ 1 <;>
    simp [hr, ho, hg, String.append_assoc]

theorem clauseText_size (cl : MariadbWhereClause) (h : cl.Key ≠ []) :
    3 ≤ (clauseText cl).utf8ByteSize := by
  have ho := byteSize_pos_of_ne_empty _ (opOrEq_ne_empty cl.Operator)
  have hs : (" " : String).utf8ByteSize = 1 := rfl
  unfold clauseText expansionText
  cases hk : cl.Key with
  | nil => exact absurd hk h
  | cons key rest =>
    split <;> simp only [keysText, keyText, byteSize_append, hs] <;> omega

theorem clauseLoop_invalid (cls : List MariadbWhereClause) :
    ∀ (j : Nat) (acc : Acc), (∃ cl ∈ cls, ClauseInvalid cl) →
      ∃ e, clauseLoop j cls acc = .error e := by
  induction cls with
  | nil => intro j acc h; simp at h
  | cons cl rest ih =>
    intro j acc h
    rw [clauseLoop]
    by_cases hc : ClauseInvalid cl
    · obtain ⟨e, he⟩ := clauseBody_invalid j cl acc hc
      exact ⟨e, by rw [he]⟩
    · have hrest : ∃ x ∈ rest, ClauseInvalid x := by
        obtain ⟨x, hx, hi⟩ := h
        rcases List.mem_cons.mp hx with rfl | hx
        · exact absurd hi hc
        · exact ⟨x, hx, hi⟩
      rw [clauseBody_valid j cl acc.1 acc.2 hc]
      exact ih _ _ hrest

theorem clauseLoop_later (cls : List MariadbWhereClause) :
    ∀ (j : Nat) (b : String) (vs : List String), (∀ cl ∈ cls, ¬ ClauseInvalid cl) →
      1 ≤ j → 8 < b.utf8ByteSize →
      clauseLoop j cls (b, vs) = .ok (b ++ joinedClauses cls, vs ++ clausesValues cls) := by
  induction cls with
  | nil => intro j b vs _ _ _; simp [clauseLoop, joinedClauses, clausesValues]
  | cons cl rest ih =>
    intro j b vs hv hj hb
    have hg : b.utf8ByteSize > 8 ∧ j ≥ 1 := ⟨hb, hj⟩
    rw [clauseLoop, clauseBody_valid j cl b vs (hv cl (List.mem_cons_self _ _))]
    simp only [hg, and_self, if_true]
    rw [ih (j + 1) _ _ (fun x hx => hv x (List.mem_cons_of_mem _ hx)) (by omega)
      (by simp only [byteSize_append]; omega)]
    simp [joinedClauses, clausesValues, String.append_assoc]

theorem clauseLoop_first (cls : List MariadbWhereClause) (b : String) (vs : List String)
    (hv : ∀ cl ∈ cls, ¬ ClauseInvalid cl) (hb : 6 ≤ b.utf8ByteSize) :
    clauseLoop 0 cls (b, vs) = .ok (b ++ clausesText cls, vs ++ clausesValues cls) := by
  cases cls with
  | nil => simp [clauseLoop, clausesText, clausesValues]
  | cons cl rest =>
    have hcl : ¬ ClauseInvalid cl := hv cl (List.mem_cons_self _ _)
    have hkey : cl.Key ≠ [] := fun h => hcl (Or.inl h)
    have hsize := clauseText_size cl hkey
    rw [clauseLoop, clauseBody_valid 0 cl b vs hcl]
    simp only [ge_iff_le, Nat.not_succ_le_zero, and_false, if_false, String.append_empty]
    rw [clauseLoop_later rest 1 _ _ (fun x hx => hv x (List.mem_cons_of_mem _ hx))
      (Nat.le_refl 1) (by simp only [byteSize_append]; omega)]
    simp [clausesText, clausesValues, String.append_assoc]

theorem groupLoop_invalid (n : Nat) (gs : List MariadbWhereGrouping) :
    ∀ (gc : Nat) (rel : String) (acc : Acc), ¬ AllValid gs → 6 ≤ acc.1.utf8ByteSize →
      ∃ e, groupLoop n gc gs rel acc = .error e := by
  induction gs with
  | nil => intro gc rel acc h; exact absurd (by intro g hg; simp at hg) h
  | cons g rest ih =>
    intro gc rel acc h hb
    obtain ⟨b, vs⟩ := acc
    rw [groupLoop]
    by_cases hg : ∀ cl ∈ g.Clauses, ¬ ClauseInvalid cl
    · have hrest : ¬ AllValid rest := by
        intro hr
        apply h
        intro x hx
        rcases List.mem_cons.mp hx with rfl | hx
        · exact hg
        · exact hr x hx
      simp only
      have hb6 : 6 ≤ b.utf8ByteSize := hb
      rw [clauseLoop_first g.Clauses _ vs hg (by
        split_ifs <;> (try simp only [byteSize_append]) <;> omega)]
      simp only
      apply ih
      · exact hrest
      · show 6 ≤ String.utf8ByteSize _
        split_ifs <;> (try simp only [byteSize_append]) <;> omega
    · have hex : ∃ cl ∈ g.Clauses, ClauseInvalid cl := by
        by_contra hne
        exact hg (fun cl hcl hi => hne ⟨cl, hcl, hi⟩)
      obtain ⟨e, he⟩ := clauseLoop_invalid g.Clauses 0 _ hex
      exact ⟨e, by simp only; rw [he]⟩

theorem allValid_cons (g : MariadbWhereGrouping) (rest : List MariadbWhereGrouping) :
    AllValid (g :: rest) ↔ (∀ cl ∈ g.Clauses, ¬ ClauseInvalid cl) ∧ AllValid rest := by
  unfold AllValid
  simp

theorem groupLoop_later (n : Nat) (gs : List MariadbWhereGrouping) :
    ∀ (gc : Nat) (rel b : String) (vs : List String), AllValid gs → 1 ≤ gc → 1 < n →
      6 ≤ b.utf8ByteSize →
      groupLoop n gc gs rel (b, vs) =
        .ok (b ++ joinedGroupings (relOrAnd rel) gs, vs ++ groupingsValues gs) := by
  induction gs with
  | nil => intro gc rel b vs _ _ _ _; simp [groupLoop, joinedGroupings, groupingsValues]
  | cons g rest ih =>
    intro gc rel b vs hv hgc hn hb
    rw [allValid_cons] at hv
    have hcond : n > 1 ∧ gc ≥ 1 := ⟨hn, hgc⟩
    rw [groupLoop]
    simp only [hcond, and_self, if_true]
    rw [clauseLoop_first g.Clauses _ vs hv.1 (by
      split_ifs <;> (try simp only [byteSize_append]) <;> omega)]
    simp only
    rw [ih (gc + 1) _ _ _ hv.2 (by omega) hn (by
      split_ifs <;> (try simp only [byteSize_append]) <;> omega)]
    have hrel : (if rel = "" then "AND" else rel) = relOrAnd rel := rfl
    rw [hrel, relOrAnd_idem]
    by_cases hl : g.Clauses.length > 1
    · simp [hl, joinedGroupings, groupingText, groupingsValues, String.append_assoc]
      rfl
    · simp [hl, joinedGroupings, groupingText, groupingsValues, String.append_assoc]

theorem groupLoop_first (gs : List MariadbWhereGrouping) (rel b : String) (vs : List String)
    (hv : AllValid gs) (hb : 6 ≤ b.utf8ByteSize) :
    groupLoop gs.length 0 gs rel (b, vs) =
      .ok (b ++ groupingsText (relOrAnd rel) gs, vs ++ groupingsValues gs) := by
  cases gs with
  | nil => simp [groupLoop, groupingsText, groupingsValues]
  | cons g rest =>
    rw [allValid_cons] at hv
    rw [groupLoop]
    simp only [ge_iff_le, Nat.not_succ_le_zero, and_false, if_false]
    rw [clauseLoop_first g.Clauses _ vs hv.1 (by
      split_ifs <;> (try simp only [byteSize_append]) <;> omega)]
    simp only
    cases rest with
    | nil =>
      by_cases hl : g.Clauses.length > 1 <;>
        simp [hl, groupLoop, joinedGroupings, groupingsText, groupingText, groupingsValues,
          String.append_assoc]
    | cons g2 rest2 =>
      rw [groupLoop_later _ (g2 :: rest2) 1 _ _ _ hv.2 (Nat.le_refl 1) (by simp) (by
        split_ifs <;> (try simp only [byteSize_append]) <;> omega)]
      by_cases hl : g.Clauses.length > 1 <;>
        simp [hl, groupingsText, groupingText, groupingsValues, String.append_assoc]

/-- The result of `Stringify` when every clause passes validation and there is
at least one grouping. -/
theorem stringify_valid (c : MariadbWhereClauses) (hne : c.Groups ≠ [])
    (hv : AllValid c.Groups) :
    c.Stringify =
      ⟨"WHERE " ++ groupingsText (relOrAnd c.Relativity) c.Groups,
        groupingsValues c.Groups, none⟩ := by
  have hlen : ¬ c.Groups.length < 1 := by
    cases hg : c.Groups with
    | nil => exact absurd hg hne
    | cons g rest => simp
  unfold MariadbWhereClauses.Stringify
  rw [if_neg hlen, groupLoop_first c.Groups c.Relativity "WHERE " [] hv (by decide)]
  simp

/-- The result of `Stringify` when some clause fails validation. -/
theorem stringify_invalid (c : MariadbWhereClauses) (hv : ¬ AllValid c.Groups) :
    ∃ e, c.Stringify = ⟨"", [], some e⟩ := by
  have hlen : ¬ c.Groups.length < 1 := by
    cases hg : c.Groups with
    | nil => rw [hg] at hv; exact absurd (by intro g hg; simp at hg) hv
    | cons g rest => simp
  obtain ⟨e, he⟩ := groupLoop_invalid c.Groups.length c.Groups 0 c.Relativity ("WHERE ", [])
    hv (by decide)
  exact ⟨e, by unfold MariadbWhereClauses.Stringify; rw [if_neg hlen, he]⟩

theorem stringify_nil (c : MariadbWhereClauses) (h : c.Groups = []) :
    c.Stringify = ⟨"", [], none⟩ := by
  unfold MariadbWhereClauses.Stringify
  simp [h]

/-- Compilation succeeds exactly when every clause passes validation. -/
theorem stringify_err_none_iff (c : MariadbWhereClauses) :
    c.Stringify.err = none ↔ AllValid c.Groups := by
  constructor
  · intro h
    by_contra hv
    obtain ⟨e, he⟩ := stringify_invalid c hv
    rw [he] at h
    exact absurd h (by simp)
  · intro hv
    by_cases hne : c.Groups = []
    · rw [stringify_nil c hne]
    · rw [stringify_valid c hne hv]

/-! ### Counting placeholders -/

theorem questionMarks_append (a b : String) :
    questionMarks (a ++ b) = questionMarks a + questionMarks b := by
  unfold questionMarks
  rw [String.data_append, List.count_append]

theorem questionMarks_eq_zero (s : String) (h : '?' ∉ s.data) : questionMarks s = 0 :=
  List.count_eq_zero.mpr h

theorem questionMarks_relOrAnd (r : String) (h : '?' ∉ r.data) :
    questionMarks (relOrAnd r) = 0 := by
  unfold relOrAnd
  split
  · rfl
  · exact questionMarks_eq_zero r h

theorem questionMarks_opOrEq (o : String) (h : '?' ∉ o.data) :
    questionMarks (opOrEq o) = 0 := by
  unfold opOrEq
  split
  · rfl
  · exact questionMarks_eq_zero o h

theorem questionMarks_commaPlaceholders (value : List String) :
    questionMarks (commaPlaceholders value) = value.length := by
  induction value with
  | nil => rfl
  | cons v rest ih =>
    cases rest with
    | nil => rfl
    | cons w rest2 =>
      have h1 : questionMarks "?," = 1 := rfl
      rw [commaPlaceholders, questionMarks_append, ih, h1]
      simp only [List.length_cons]
      omega

theorem questionMarks_placeholderText (value : List String) :
    questionMarks (placeholderText value) = value.length := by
  have h1 : questionMarks "(" = 0 := rfl
  have h2 : questionMarks ") " = 0 := rfl
  have h3 : questionMarks "? " = 1 := rfl
  have h4 : questionMarks "" = 0 := rfl
  unfold placeholderText
  split_ifs with ha hb
  · rw [questionMarks_append, questionMarks_append, questionMarks_commaPlaceholders, h1, h2]
    omega
  · rw [h3, hb]
  · rw [h4]; omega

theorem questionMarks_keyText (operator : String) (value : List String) (key : String)
    (ho : questionMarks operator = 0) (hk : questionMarks key = 0) :
    questionMarks (keyText operator value key) = value.length := by
  have hs : questionMarks " " = 0 := rfl
  unfold keyText
  simp only [questionMarks_append, questionMarks_placeholderText, ho, hk, hs]
  omega

theorem questionMarks_orKeysText (operator : String) (value : List String)
    (ho : questionMarks operator = 0) (keys : List String)
    (hk : ∀ k ∈ keys, questionMarks k = 0) :
    questionMarks (orKeysText operator value keys) = keys.length * value.length := by
  have hor : questionMarks "OR " = 0 := rfl
  induction keys with
  | nil => simp [orKeysText]; rfl
  | cons key rest ih =>
    rw [orKeysText, questionMarks_append, questionMarks_append, hor,
      questionMarks_keyText operator value key ho (hk key (List.mem_cons_self _ _)),
      ih (fun k h => hk k (List.mem_cons_of_mem _ h)), List.length_cons, Nat.succ_mul]
    omega

theorem questionMarks_keysText (operator : String) (value : List String)
    (ho : questionMarks operator = 0) (keys : List String)
    (hk : ∀ k ∈ keys, questionMarks k = 0) :
    questionMarks (keysText operator value keys) = keys.length * value.length := by
  cases keys with
  | nil => simp [keysText]; rfl
  | cons key rest =>
    rw [keysText, questionMarks_append,
      questionMarks_keyText operator value key ho (hk key (List.mem_cons_self _ _)),
      questionMarks_orKeysText operator value ho rest
        (fun k h => hk k (List.mem_cons_of_mem _ h)), List.length_cons, Nat.succ_mul]
    omega

theorem length_clauseValues (cl : MariadbWhereClause) :
    (clauseValues cl).length = cl.Key.length * cl.Value.length := by
  unfold clauseValues
  induction cl.Key with
  | nil => simp
  | cons k rest ih => simp [List.flatMap_cons, ih, Nat.succ_mul]; omega

theorem questionMarks_clauseText (cl : MariadbWhereClause) (h : ClauseClean cl) :
    questionMarks (clauseText cl) = (clauseValues cl).length := by
  have h1 : questionMarks "( " = 0 := rfl
  have h2 : questionMarks ")" = 0 := rfl
  have hk := questionMarks_keysText (opOrEq cl.Operator) cl.Value
    (questionMarks_opOrEq _ h.2.1) cl.Key (fun k hk => questionMarks_eq_zero k (h.2.2 k hk))
  rw [length_clauseValues]
  unfold clauseText expansionText
  split_ifs
  · rw [questionMarks_append, questionMarks_append, hk, h1, h2]; omega
  · exact hk

theorem questionMarks_joinedClauses (cls : List MariadbWhereClause)
    (h : ∀ cl ∈ cls, ClauseClean cl) :
    questionMarks (joinedClauses cls) = (clausesValues cls).length := by
  have hs : questionMarks " " = 0 := rfl
  induction cls with
  | nil => rfl
  | cons cl rest ih =>
    have hcl := h cl (List.mem_cons_self _ _)
    simp only [joinedClauses, clausesValues, List.flatMap_cons, questionMarks_append,
      List.length_append, questionMarks_clauseText cl hcl, hs,
      questionMarks_relOrAnd _ hcl.1]
    have := ih (fun x hx => h x (List.mem_cons_of_mem _ hx))
    unfold clausesValues at this
    omega

theorem questionMarks_clausesText (cls : List MariadbWhereClause)
    (h : ∀ cl ∈ cls, ClauseClean cl) :
    questionMarks (clausesText cls) = (clausesValues cls).length := by
  cases cls with
  | nil => rfl
  | cons cl rest =>
    have hcl := h cl (List.mem_cons_self _ _)
    have := questionMarks_joinedClauses rest (fun x hx => h x (List.mem_cons_of_mem _ hx))
    simp only [clausesText, clausesValues, List.flatMap_cons, questionMarks_append,
      List.length_append, questionMarks_clauseText cl hcl]
    unfold clausesValues at this
    omega

theorem questionMarks_groupingText (g : MariadbWhereGrouping)
    (h : ∀ cl ∈ g.Clauses, ClauseClean cl) :
    questionMarks (groupingText g) = (clausesValues g.Clauses).length := by
  have h1 : questionMarks "( " = 0 := rfl
  have h2 : questionMarks ") " = 0 := rfl
  unfold groupingText
  split_ifs
  · rw [questionMarks_append, questionMarks_append, questionMarks_clausesText _ h, h1, h2]
    omega
  · exact questionMarks_clausesText _ h

theorem questionMarks_joinedGroupings (r : String) (hr : questionMarks r = 0)
    (gs : List MariadbWhereGrouping) (h : ∀ g ∈ gs, ∀ cl ∈ g.Clauses, ClauseClean cl) :
    questionMarks (joinedGroupings r gs) = (groupingsValues gs).length := by
  have hs : questionMarks " " = 0 := rfl
  induction gs with
  | nil => rfl
  | cons g rest ih =>
    have := ih (fun x hx => h x (List.mem_cons_of_mem _ hx))
    simp only [joinedGroupings, groupingsValues, List.flatMap_cons, questionMarks_append,
      List.length_append, questionMarks_groupingText g (h g (List.mem_cons_self _ _)), hs, hr]
    unfold groupingsValues at this
    omega

theorem questionMarks_groupingsText (r : String) (hr : questionMarks r = 0)
    (gs : List MariadbWhereGrouping) (h : ∀ g ∈ gs, ∀ cl ∈ g.Clauses, ClauseClean cl) :
    questionMarks (groupingsText r gs) = (groupingsValues gs).length := by
  cases gs with
  | nil => rfl
  | cons g rest =>
    have := questionMarks_joinedGroupings r hr rest (fun x hx => h x (List.mem_cons_of_mem _ hx))
    simp only [groupingsText, groupingsValues, List.flatMap_cons, questionMarks_append,
      List.length_append, questionMarks_groupingText g (h g (List.mem_cons_self _ _))]
    unfold groupingsValues at this
    omega

theorem length_clausesValues (cls : List MariadbWhereClause) :
    (clausesValues cls).length =
      (cls.map (fun cl => cl.Key.length * cl.Value.length)).sum := by
  unfold clausesValues
  induction cls with
  | nil => rfl
  | cons cl rest ih =>
    simp only [List.flatMap_cons, List.length_append, List.map_cons, List.sum_cons, ih,
      length_clauseValues]

theorem length_groupingsValues (gs : List MariadbWhereGrouping) :
    (groupingsValues gs).length =
      (gs.map (fun g => (g.Clauses.map (fun cl => cl.Key.length * cl.Value.length)).sum)).sum := by
  unfold groupingsValues
  induction gs with
  | nil => rfl
  | cons g rest ih =>
    simp only [List.flatMap_cons, List.length_append, List.map_cons, List.sum_cons, ih,
      length_clausesValues]

theorem not_allValid_iff (gs : List MariadbWhereGrouping) :
    ¬ AllValid gs ↔ ∃ g ∈ gs, ∃ cl ∈ g.Clauses, ClauseInvalid cl := by
  unfold AllValid
  push_neg
  rfl

/-! ### Splitting the text at a clause or at a grouping -/

theorem joinedClauses_append (xs ys : List MariadbWhereClause) :
    joinedClauses (xs ++ ys) = joinedClauses xs ++ joinedClauses ys := by
  induction xs with
  | nil => simp [joinedClauses]
  | cons x rest ih => simp [joinedClauses, ih, String.append_assoc]

theorem clausesText_append_cons (xs ys : List MariadbWhereClause) (cl : MariadbWhereClause)
    (hx : xs ≠ []) :
    clausesText (xs ++ cl :: ys) =
      clausesText xs ++ (relOrAnd cl.Relativity ++ " " ++ clauseText cl) ++ joinedClauses ys := by
  cases xs with
  | nil => exact absurd rfl hx
  | cons x rest =>
    simp [clausesText, joinedClauses_append, joinedClauses, String.append_assoc]

theorem joinedGroupings_append (r : String) (xs ys : List MariadbWhereGrouping) :
    joinedGroupings r (xs ++ ys) = joinedGroupings r xs ++ joinedGroupings r ys := by
  induction xs with
  | nil => simp [joinedGroupings]
  | cons x rest ih => simp [joinedGroupings, ih, String.append_assoc]

theorem groupingsText_append_cons (r : String) (xs ys : List MariadbWhereGrouping)
    (g : MariadbWhereGrouping) :
    groupingsText r (xs ++ g :: ys) =
      groupingsText r xs ++ (if xs = [] then "" else r ++ " ") ++ groupingText g ++
        joinedGroupings r ys := by
  cases xs with
  | nil => simp [groupingsText]
  | cons x rest =>
    simp [groupingsText, joinedGroupings_append, joinedGroupings, String.append_assoc]

theorem stringify_text (c : MariadbWhereClauses) (hok : c.Stringify.err = none)
    (hne : c.Groups ≠ []) :
    c.Stringify.whereSQL = "WHERE " ++ groupingsText (relOrAnd c.Relativity) c.Groups := by
  rw [stringify_valid c hne ((stringify_err_none_iff c).mp hok)]

/-! ### The key expansion in elementary terms -/

theorem foldl_append_eq (l : List String) :
    ∀ acc : String, l.foldl (fun r s => r ++ s) acc = acc ++ l.foldl (fun r s => r ++ s) "" := by
  induction l with
  | nil => intro acc; simp
  | cons x rest ih =>
    intro acc
    rw [List.foldl_cons, List.foldl_cons, ih (acc ++ x), ih ("" ++ x)]
    simp [String.append_assoc]

theorem string_join_cons (x : String) (l : List String) :
    String.join (x :: l) = x ++ String.join l := by
  unfold String.join
  rw [List.foldl_cons, foldl_append_eq]
  simp

theorem orKeysText_one_value (operator v : String) (keys : List String) :
    orKeysText operator [v] keys =
      String.join (keys.map (fun k => "OR " ++ k ++ " " ++ operator ++ " ? ")) := by
  induction keys with
  | nil => rfl
  | cons k rest ih =>
    rw [List.map_cons, string_join_cons, orKeysText, ih]
    simp [keyText, placeholderText, String.append_assoc]

theorem flatMap_const_singleton (v : String) (keys : List String) :
    keys.flatMap (fun _ => [v]) = List.replicate keys.length v := by
  induction keys with
  | nil => rfl
  | cons k rest ih => simp [List.flatMap_cons, ih, List.replicate_succ]

theorem intercalate_go_append (s : String) (l : List String) :
    ∀ x y : String, String.intercalate.go (x ++ y) s l = x ++ String.intercalate.go y s l := by
  induction l with
  | nil => intro x y; rfl
  | cons a rest ih =>
    intro x y
    rw [String.intercalate.go, String.intercalate.go, String.append_assoc,
      String.append_assoc, ih x (y ++ (s ++ a)), ← String.append_assoc y s a]

theorem commaPlaceholders_eq (value : List String) :
    commaPlaceholders value = String.intercalate "," (List.replicate value.length "?") := by
  induction value with
  | nil => rfl
  | cons v rest ih =>
    cases rest with
    | nil => rfl
    | cons w rest2 =>
      have hgo := intercalate_go_append "," (List.replicate rest2.length "?") "?," "?"
      rw [commaPlaceholders, ih]
      simp only [List.length_cons, List.replicate_succ, String.intercalate,
        String.intercalate.go]
      exact hgo.symm

theorem orKeysText_no_value (operator : String) (keys : List String) :
    orKeysText operator [] keys =
      String.join (keys.map (fun k => "OR " ++ k ++ " " ++ operator ++ " ")) := by
  induction keys with
  | nil => rfl
  | cons k rest ih =>
    rw [List.map_cons, string_join_cons, orKeysText, ih]
    simp [keyText, placeholderText, String.append_assoc]

theorem allValid_single (cl : MariadbWhereClause) (h : ¬ ClauseInvalid cl) :
    AllValid [(⟨[cl]⟩ : MariadbWhereGrouping)] := by
  intro g hg x hx
  simp only [List.mem_singleton] at hg
  subst hg
  simp only [List.mem_singleton] at hx
  subst hx
  exact h

/-- The result of compiling the clause-set that holds one valid clause. -/
theorem stringify_single (R : String) (cl : MariadbWhereClause) (h : ¬ ClauseInvalid cl) :
    MariadbWhereClauses.Stringify ⟨R, [⟨[cl]⟩]⟩ =
      ⟨"WHERE " ++ clauseText cl, clauseValues cl, none⟩ := by
  rw [stringify_valid _ (by simp) (allValid_single cl h)]
  simp [groupingsText, groupingText, clausesText, joinedClauses, joinedGroupings,
    groupingsValues, clausesValues]

theorem stringsToUpper_ne_empty (o : String) (h : stringsToUpper o = "IN") : o ≠ "" := by
  intro he
  rw [he] at h
  exact absurd h (by decide)

/-! ### The error that is returned -/

theorem clauseError_eq_none_iff (cl : MariadbWhereClause) :
    clauseError cl = none ↔ ¬ ClauseInvalid cl := by
  unfold clauseError ClauseInvalid
  split_ifs with h1 h2
  · simp only [reduceCtorEq, false_iff, not_not]
    rcases h1 with h | h
    · exact Or.inl h
    · exact Or.inr (Or.inl h)
  · simp only [reduceCtorEq, false_iff, not_not]
    exact Or.inr (Or.inr h2)
  · simp only [true_iff]
    rintro (h | h | h)
    · exact h1 (Or.inl h)
    · exact h1 (Or.inr h)
    · exact h2 h

theorem clauseBody_error (j : Nat) (cl : MariadbWhereClause) (acc : Acc) (e : String)
    (h : clauseError cl = some e) : clauseBody j cl acc = .error e := by
  unfold clauseError at h
  unfold clauseBody
  have hcond : (cl.Key.length < 1 ∨
        (cl.Value.length < 1 ∧ ¬ stringsContains cl.Operator "IS N" = true)) ↔
      (cl.Key = [] ∨ (cl.Value = [] ∧ ¬ "IS N".data <:+: cl.Operator.data)) := by
    rw [stringsContains_iff, Nat.lt_one_iff, Nat.lt_one_iff, List.length_eq_zero,
      List.length_eq_zero]
  split_ifs at h with h1 h2
  · rw [if_pos (hcond.mpr h1)]
    exact congrArg _ (Option.some.inj h)
  · rw [if_neg (fun hc => h1 (hcond.mp hc)), if_pos h2]
    exact congrArg _ (Option.some.inj h)

theorem firstError_eq_none_iff (cls : List MariadbWhereClause) :
    firstError cls = none ↔ ∀ cl ∈ cls, ¬ ClauseInvalid cl := by
  induction cls with
  | nil => simp [firstError]
  | cons cl rest ih =>
    rw [firstError]
    cases hce : clauseError cl with
    | some e =>
      have hinv : ClauseInvalid cl := by
        by_contra hn
        rw [(clauseError_eq_none_iff cl).mpr hn] at hce
        exact absurd hce (by simp)
      simp only [reduceCtorEq, false_iff]
      intro hall
      exact hall cl (List.mem_cons_self _ _) hinv
    | none =>
      simp only [ih, List.mem_cons, forall_eq_or_imp]
      exact ⟨fun h => ⟨(clauseError_eq_none_iff cl).mp hce, h⟩, fun h => h.2⟩

theorem firstError_append (xs ys : List MariadbWhereClause) :
    firstError (xs ++ ys) =
      match firstError xs with
      | some e => some e
      | none => firstError ys := by
  induction xs with
  | nil => rfl
  | cons x rest ih =>
    rw [List.cons_append, firstError, firstError]
    cases clauseError x with
    | some e => rfl
    | none => exact ih

theorem clauseLoop_error (cls : List MariadbWhereClause) (e : String) :
    ∀ (j : Nat) (acc : Acc), firstError cls = some e → clauseLoop j cls acc = .error e := by
  induction cls with
  | nil => intro j acc h; exact absurd h (by simp [firstError])
  | cons cl rest ih =>
    intro j acc h
    rw [firstError] at h
    rw [clauseLoop]
    cases hce : clauseError cl with
    | some e2 =>
      rw [hce] at h
      rw [clauseBody_error j cl acc e2 hce]
      exact congrArg _ (Option.some.inj h)
    | none =>
      rw [hce] at h
      rw [clauseBody_valid j cl acc.1 acc.2 ((clauseError_eq_none_iff cl).mp hce)]
      exact ih _ _ h

theorem groupLoop_error (n : Nat) (gs : List MariadbWhereGrouping) (e : String) :
    ∀ (gc : Nat) (rel : String) (acc : Acc), firstError (allClauses gs) = some e →
      6 ≤ acc.1.utf8ByteSize → groupLoop n gc gs rel acc = .error e := by
  induction gs with
  | nil => intro gc rel acc h; exact absurd h (by simp [allClauses, firstError])
  | cons g rest ih =>
    intro gc rel acc h hb
    obtain ⟨b, vs⟩ := acc
    have hb6 : 6 ≤ b.utf8ByteSize := hb
    have hsplit : allClauses (g :: rest) = g.Clauses ++ allClauses rest := by
      simp [allClauses]
    rw [hsplit, firstError_append] at h
    rw [groupLoop]
    cases hfe : firstError g.Clauses with
    | some e2 =>
      rw [hfe] at h
      simp only
      rw [clauseLoop_error g.Clauses e2 0 _ hfe]
      exact congrArg _ (Option.some.inj h)
    | none =>
      rw [hfe] at h
      simp only
      rw [clauseLoop_first g.Clauses _ vs ((firstError_eq_none_iff _).mp hfe) (by
        split_ifs <;> (try simp only [byteSize_append]) <;> omega)]
      simp only
      apply ih _ _ _ h
      show 6 ≤ String.utf8ByteSize _
      split_ifs <;> (try simp only [byteSize_append]) <;> omega

theorem allValid_iff_firstError (gs : List MariadbWhereGrouping) :
    AllValid gs ↔ firstError (allClauses gs) = none := by
  rw [firstError_eq_none_iff]
  unfold AllValid allClauses
  simp only [List.mem_flatMap]
  constructor
  · rintro h cl ⟨g, hg, hcl⟩
    exact h g hg cl hcl
  · intro h g hg cl hcl
    exact h cl ⟨g, hg, hcl⟩

/-- The error `Stringify` returns is the error of the first clause, in
traversal order, that has one. -/
theorem stringify_err (c : MariadbWhereClauses) :
    c.Stringify.err = firstError (allClauses c.Groups) := by
  cases hfe : firstError (allClauses c.Groups) with
  | none => exact (stringify_err_none_iff c).mpr ((allValid_iff_firstError _).mpr hfe)
  | some e =>
    have hlen : ¬ c.Groups.length < 1 := by
      cases hg : c.Groups with
      | nil => rw [hg] at hfe; exact absurd hfe (by simp [allClauses, firstError])
      | cons g rest => simp
    unfold MariadbWhereClauses.Stringify
    rw [if_neg hlen, groupLoop_error c.Groups.length c.Groups e 0 c.Relativity ("WHERE ", [])
      hfe (by decide)]

theorem stringify_of_err_some (c : MariadbWhereClauses) (e : String)
    (h : c.Stringify.err = some e) : c.Stringify = ⟨"", [], some e⟩ := by
  have hv : ¬ AllValid c.Groups := by
    intro hv
    rw [(stringify_err_none_iff c).mpr hv] at h
    exact absurd h (by simp)
  obtain ⟨e2, he2⟩ := stringify_invalid c hv
  rw [he2] at h ⊢
  simp only [Option.some.injEq] at h
  rw [h]

/-! ### Filling in the defaults beforehand -/

theorem opOrEq_idem (o : String) : opOrEq (opOrEq o) = opOrEq o := by
  unfold opOrEq
  by_cases h : o = ""
  · simp [h]
  · simp [h]

theorem clauseError_fillClause (cl : MariadbWhereClause) :
    clauseError (fillClause cl) = clauseError cl := by
  by_cases ho : cl.Operator = ""
  · have h1 : ¬ "IS N".data <:+: "".data := by decide
    have h2 : ¬ "IS N".data <:+: "=".data := by decide
    have h3 : stringsToUpper "" ≠ "IN" := by decide
    have h4 : stringsToUpper "=" ≠ "IN" := by decide
    have hop : opOrEq "" = "=" := rfl
    simp only [clauseError, fillClause, ho, hop, h1, h2, ne_eq, h3, h4]
  · have hop : opOrEq cl.Operator = cl.Operator := by
      unfold opOrEq
      rw [if_neg ho]
    simp only [clauseError, fillClause, hop]

theorem firstError_map_fillClause (cls : List MariadbWhereClause) :
    firstError (cls.map fillClause) = firstError cls := by
  induction cls with
  | nil => rfl
  | cons cl rest ih =>
    rw [List.map_cons, firstError, firstError, clauseError_fillClause, ih]

theorem allClauses_fillDefaults (c : MariadbWhereClauses) :
    allClauses (fillDefaults c).Groups = (allClauses c.Groups).map fillClause := by
  unfold allClauses fillDefaults
  induction c.Groups with
  | nil => rfl
  | cons g rest ih =>
    simp only [List.map_cons, List.flatMap_cons, List.map_append, ih]

theorem clauseText_fillClause (cl : MariadbWhereClause) :
    clauseText (fillClause cl) = clauseText cl := by
  unfold clauseText fillClause
  simp only [opOrEq_idem]

theorem clauseValues_fillClause (cl : MariadbWhereClause) :
    clauseValues (fillClause cl) = clauseValues cl := rfl

theorem joinedClauses_map_fillClause (cls : List MariadbWhereClause) :
    joinedClauses (cls.map fillClause) = joinedClauses cls := by
  induction cls with
  | nil => rfl
  | cons cl rest ih =>
    rw [List.map_cons, joinedClauses, joinedClauses, ih, clauseText_fillClause]
    have hr : relOrAnd (fillClause cl).Relativity = relOrAnd cl.Relativity :=
      relOrAnd_idem cl.Relativity
    rw [hr]

theorem clausesText_map_fillClause (cls : List MariadbWhereClause) :
    clausesText (cls.map fillClause) = clausesText cls := by
  cases cls with
  | nil => rfl
  | cons cl rest =>
    rw [List.map_cons, clausesText, clausesText, joinedClauses_map_fillClause,
      clauseText_fillClause]

theorem clausesValues_map_fillClause (cls : List MariadbWhereClause) :
    clausesValues (cls.map fillClause) = clausesValues cls := by
  unfold clausesValues
  induction cls with
  | nil => rfl
  | cons cl rest ih =>
    simp only [List.map_cons, List.flatMap_cons, ih, clauseValues_fillClause]

theorem groupingText_fill (g : MariadbWhereGrouping) :
    groupingText ⟨g.Clauses.map fillClause⟩ = groupingText g := by
  unfold groupingText
  simp only [List.length_map, clausesText_map_fillClause]

theorem joinedGroupings_fill (r : String) (gs : List MariadbWhereGrouping) :
    joinedGroupings r (gs.map (fun g => ⟨g.Clauses.map fillClause⟩)) = joinedGroupings r gs := by
  induction gs with
  | nil => rfl
  | cons g rest ih =>
    rw [List.map_cons, joinedGroupings, joinedGroupings, ih, groupingText_fill]

theorem groupingsText_fill (r : String) (gs : List MariadbWhereGrouping) :
    groupingsText r (gs.map (fun g => ⟨g.Clauses.map fillClause⟩)) = groupingsText r gs := by
  cases gs with
  | nil => rfl
  | cons g rest =>
    rw [List.map_cons, groupingsText, groupingsText, joinedGroupings_fill, groupingText_fill]

theorem groupingsValues_fill (gs : List MariadbWhereGrouping) :
    groupingsValues (gs.map (fun g => ⟨g.Clauses.map fillClause⟩)) = groupingsValues gs := by
  unfold groupingsValues
  induction gs with
  | nil => rfl
  | cons g rest ih =>
    simp only [List.map_cons, List.flatMap_cons, ih, clausesValues_map_fillClause]

/-! ### The caller's memory -/

theorem clauseStep_eq (j : Nat) (m : Memory) :
    clauseStep j m =
      match clauseBody j m.clause (m.whereBuilder, m.values) with
      | .error e => (m, some e)
      | .ok acc =>
        ({ m with clause := fillClause m.clause, whereBuilder := acc.1, values := acc.2 },
          none) := by
  unfold clauseStep clauseBody
  by_cases h1 : m.clause.Key.length < 1 ∨
      (m.clause.Value.length < 1 ∧ ¬ stringsContains m.clause.Operator "IS N" = true)
  · simp only [if_pos h1]
  · by_cases h2 : m.clause.Value.length > 1 ∧ stringsToUpper m.clause.Operator ≠ "IN"
    · simp only [if_neg h1, if_pos h2]
    · simp only [if_neg h1, if_neg h2]
      unfold fillClause relOrAnd opOrEq
      by_cases hr : m.clause.Relativity = "" <;> by_cases ho : m.clause.Operator = "" <;>
        by_cases hg : m.whereBuilder.utf8ByteSize > 8 ∧ j ≥ 1 <;>
        simp [hr, ho, hg]

theorem clauseLoopM_spec (gi : Nat) :
    ∀ (fuel j : Nat) (m : Memory),
      j + fuel = (m.caller.Groups.getD gi ⟨[]⟩).Clauses.length →
      (clauseLoopM gi fuel j m).1.caller = m.caller ∧
        (clauseLoopM gi fuel j m).1.receiverRelativity = m.receiverRelativity ∧
        Agrees (clauseLoopM gi fuel j m)
          (clauseLoop j ((m.caller.Groups.getD gi ⟨[]⟩).Clauses.drop j)
            (m.whereBuilder, m.values)) := by
  intro fuel
  induction fuel with
  | zero =>
    intro j m h
    rw [clauseLoopM, List.drop_of_length_le (by omega), clauseLoop]
    exact ⟨rfl, rfl, rfl, rfl, rfl⟩
  | succ fuel ih =>
    intro j m h
    have hj : j < (m.caller.Groups.getD gi ⟨[]⟩).Clauses.length := by omega
    rw [clauseLoopM, List.getElem?_eq_getElem hj, List.drop_eq_getElem_cons hj, clauseLoop]
    simp only
    rw [clauseStep_eq]
    simp only
    cases hb : clauseBody j ((m.caller.Groups.getD gi ⟨[]⟩).Clauses[j])
        (m.whereBuilder, m.values) with
    | error e => exact ⟨rfl, rfl, rfl⟩
    | ok acc =>
      simp only
      exact ih (j + 1) _ (by
        show j + 1 + fuel = (m.caller.Groups.getD gi ⟨[]⟩).Clauses.length
        omega)

theorem groupLoop_cons (n gc : Nat) (g : MariadbWhereGrouping)
    (rest : List MariadbWhereGrouping) (rel b : String) (vs : List String) :
    groupLoop n gc (g :: rest) rel (b, vs) =
      match clauseLoop 0 g.Clauses (openBuilder n gc g rel b, vs) with
      | .error e => .error e
      | .ok acc =>
        groupLoop n (gc + 1) rest (openRelativity n gc rel) (closeBuilder g acc.1, acc.2) := by
  rw [groupLoop]
  simp only [openBuilder, openRelativity, closeBuilder]
  cases clauseLoop 0 g.Clauses _ with
  | error e => rfl
  | ok acc => rfl

theorem groupOpen_eq (n gc : Nat) (g : MariadbWhereGrouping) (m : Memory) :
    groupOpen n gc g m =
      { m with
        receiverRelativity := openRelativity n gc m.receiverRelativity,
        whereBuilder := openBuilder n gc g m.receiverRelativity m.whereBuilder } := by
  obtain ⟨c, r, cl, b, vs⟩ := m
  unfold groupOpen openBuilder openRelativity
  by_cases hc : n > 1 ∧ gc ≥ 1 <;> by_cases hr : r = "" <;>
    by_cases hl : g.Clauses.length > 1 <;> simp [hc, hr, hl]

theorem groupClose_eq (g : MariadbWhereGrouping) (m : Memory) :
    groupClose g m = { m with whereBuilder := closeBuilder g m.whereBuilder } := by
  obtain ⟨c, r, cl, b, vs⟩ := m
  unfold groupClose closeBuilder
  by_cases hl : g.Clauses.length > 1 <;> simp [hl]

theorem groupLoopM_spec (n : Nat) :
    ∀ (fuel gc : Nat) (m : Memory),
      gc + fuel = m.caller.Groups.length →
      (groupLoopM n fuel gc m).1.caller = m.caller ∧
        Agrees (groupLoopM n fuel gc m)
          (groupLoop n gc (m.caller.Groups.drop gc) m.receiverRelativity
            (m.whereBuilder, m.values)) := by
  intro fuel
  induction fuel with
  | zero =>
    intro gc m h
    rw [groupLoopM, List.drop_of_length_le (by omega), groupLoop]
    exact ⟨rfl, rfl, rfl, rfl⟩
  | succ fuel ih =>
    intro gc m h
    have hgc : gc < m.caller.Groups.length := by omega
    have hget : m.caller.Groups.getD gc ⟨[]⟩ = m.caller.Groups[gc] := by
      rw [List.getD_eq_getElem?_getD, List.getElem?_eq_getElem hgc]
      rfl
    have key := clauseLoopM_spec gc (m.caller.Groups[gc]).Clauses.length 0
      (groupOpen n gc (m.caller.Groups[gc]) m) (by
        rw [groupOpen_eq]
        show 0 + _ = (m.caller.Groups.getD gc ⟨[]⟩).Clauses.length
        rw [hget]
        omega)
    rw [groupOpen_eq] at key
    simp only [List.drop_zero] at key
    rw [hget] at key
    rw [groupLoopM, List.getElem?_eq_getElem hgc, List.drop_eq_getElem_cons hgc,
      groupLoop_cons]
    simp only
    rw [groupOpen_eq]
    rcases hres : clauseLoopM gc (m.caller.Groups[gc]).Clauses.length 0
        { m with
          receiverRelativity := openRelativity n gc m.receiverRelativity,
          whereBuilder :=
            openBuilder n gc (m.caller.Groups[gc]) m.receiverRelativity m.whereBuilder }
      with ⟨⟨c2, r2, cl2, b2, v2⟩, flag⟩
    rw [hres] at key
    obtain ⟨hcaller, hrel, hag⟩ := key
    simp only at hcaller hrel
    subst hrel hcaller
    cases hp : clauseLoop 0 (m.caller.Groups[gc]).Clauses
        (openBuilder n gc (m.caller.Groups[gc]) m.receiverRelativity m.whereBuilder,
          m.values) with
    | error e =>
      rw [hp] at hag
      have hflag : flag = some e := hag
      subst hflag
      exact ⟨rfl, rfl⟩
    | ok acc =>
      rw [hp] at hag
      obtain ⟨hflag, hb, hv⟩ := hag
      simp only at hflag hb hv
      subst hflag hb hv
      simp only
      have hrec := ih (gc + 1) (groupClose (m.caller.Groups[gc])
          ⟨m.caller, openRelativity n gc m.receiverRelativity, cl2, acc.1, acc.2⟩) (by
        rw [groupClose_eq]
        show gc + 1 + fuel = m.caller.Groups.length
        omega)
      rw [groupClose_eq] at hrec ⊢
      exact hrec

/-- A call returns the results of `Stringify` and leaves the caller's
clause-set as it was. -/
theorem stringifyCall_spec (caller : MariadbWhereClauses) :
    (stringifyCall caller).1.caller = caller ∧ (stringifyCall caller).2 = caller.Stringify := by
  unfold stringifyCall MariadbWhereClauses.Stringify
  by_cases hlen : caller.Groups.length < 1
  · simp only [if_pos hlen, and_self]
  · simp only [if_neg hlen]
    have key := groupLoopM_spec caller.Groups.length caller.Groups.length 0
      ⟨caller, caller.Relativity, ⟨"", [], "", []⟩, "WHERE ", []⟩ (by
        show 0 + _ = caller.Groups.length
        omega)
    simp only [List.drop_zero] at key
    rcases hres : groupLoopM caller.Groups.length caller.Groups.length 0
        ⟨caller, caller.Relativity, ⟨"", [], "", []⟩, "WHERE ", []⟩
      with ⟨⟨c2, r2, cl2, b2, v2⟩, flag⟩
    rw [hres] at key
    obtain ⟨hcaller, hag⟩ := key
    simp only at hcaller
    subst hcaller
    cases hp : groupLoop c2.Groups.length 0 c2.Groups c2.Relativity ("WHERE ", []) with
    | error e =>
      rw [hp] at hag
      have hflag : flag = some e := hag
      subst hflag
      simp only [and_self]
    | ok acc =>
      rw [hp] at hag
      obtain ⟨hflag, hb, hv⟩ := hag
      simp only at hflag hb hv
      subst hflag hb hv
      simp only [and_self]

/-! ### Joining two lists of groupings -/

theorem string_append_left_cancel (s x y : String) (h : s ++ x = s ++ y) : x = y := by
  have hd := congrArg String.data h
  rw [String.data_append, String.data_append] at hd
  exact String.ext (List.append_cancel_left hd)

theorem groupingsText_append (r : String) (xs ys : List MariadbWhereGrouping)
    (hx : xs ≠ []) (hy : ys ≠ []) :
    groupingsText r (xs ++ ys) = groupingsText r xs ++ r ++ " " ++ groupingsText r ys := by
  cases ys with
  | nil => exact absurd rfl hy
  | cons g rest =>
    rw [groupingsText_append_cons, if_neg hx, groupingsText]
    simp only [String.append_assoc]

theorem groupingsValues_append (xs ys : List MariadbWhereGrouping) :
    groupingsValues (xs ++ ys) = groupingsValues xs ++ groupingsValues ys := by
  unfold groupingsValues
  rw [List.flatMap_append]

theorem allValid_append (xs ys : List MariadbWhereGrouping) (hx : AllValid xs)
    (hy : AllValid ys) : AllValid (xs ++ ys) := by
  intro g hg
  rcases List.mem_append.mp hg with h | h
  · exact hx g h
  · exact hy g h

/-! ## The claims -/

/-- C1: a clause-set with one grouping holding one clause with keys `[k]`,
operator `o` and values `[v]` compiles without error to the text
`WHERE k o' ? ` (`o'` is `o`, or `=` when `o` is empty) and the parameters
`[v]`; the basic clause-set of the test compiles to `WHERE type = ? ` with
`["test"]`. -/
theorem C1_single_clause (R r k o v : String) :
    MariadbWhereClauses.Stringify ⟨R, [⟨[⟨r, [k], o, [v]⟩]⟩]⟩ =
        ⟨"WHERE " ++ k ++ " " ++ (if o = "" then "=" else o) ++ " ? ", [v], none⟩ ∧
      MariadbWhereClauses.Stringify ⟨"", [⟨[⟨"", ["type"], "=", ["test"]⟩]⟩]⟩ =
        ⟨"WHERE type = ? ", ["test"], none⟩ := by
  refine ⟨?_, by decide⟩
  have hv : AllValid [(⟨[⟨r, [k], o, [v]⟩]⟩ : MariadbWhereGrouping)] := by
    intro g hg cl hcl
    simp only [List.mem_singleton] at hg
    subst hg
    simp only [List.mem_singleton] at hcl
    subst hcl
    simp [ClauseInvalid]
  rw [stringify_valid _ (by simp) hv]
  simp [groupingsText, groupingText, clausesText, clauseText, expansionText, keysText,
    keyText, placeholderText, orKeysText, joinedClauses, joinedGroupings, groupingsValues,
    clausesValues, clauseValues, opOrEq, String.append_assoc]

/-- C2: when compilation succeeds and no key, operator or relativity of the
input contains `?`, the number of `?` characters of the returned text equals
the length of the returned parameter list. -/
theorem C2_placeholders_match_parameters (c : MariadbWhereClauses)
    (hr : '?' ∉ c.Relativity.data)
    (hc : ∀ g ∈ c.Groups, ∀ cl ∈ g.Clauses,
      '?' ∉ cl.Relativity.data ∧ '?' ∉ cl.Operator.data ∧ ∀ k ∈ cl.Key, '?' ∉ k.data)
    (hok : c.Stringify.err = none) :
    (c.Stringify.whereSQL.data.count '?') = c.Stringify.values.length := by
  have hv := (stringify_err_none_iff c).mp hok
  by_cases hne : c.Groups = []
  · rw [stringify_nil c hne]; rfl
  · rw [stringify_valid c hne hv]
    have hw : questionMarks "WHERE " = 0 := rfl
    show questionMarks ("WHERE " ++ groupingsText (relOrAnd c.Relativity) c.Groups) = _
    rw [questionMarks_append, hw,
      questionMarks_groupingsText _ (questionMarks_relOrAnd _ hr) c.Groups hc]
    simp

/-- Witness of C2 on the `_search` clause-set of the test. -/
theorem C2_placeholders_match_parameters_witness :
    testSearch.Stringify.err = none ∧
      (testSearch.Stringify.whereSQL.data.count '?') = testSearch.Stringify.values.length :=
  ⟨by decide,
    C2_placeholders_match_parameters testSearch (by decide)
      (by
        intro g hg cl hcl
        simp only [testSearch, testSearchClauses, List.mem_cons, List.mem_singleton,
          List.not_mem_nil, or_false] at hg
        rcases hg with rfl | rfl <;>
          simp only [List.mem_cons, List.mem_singleton, List.not_mem_nil, or_false] at hcl
        · rcases hcl with rfl | rfl | rfl | rfl | rfl | rfl <;> decide
        · subst hcl; decide)
      (by decide)⟩

/-- C3: when compilation succeeds, the returned parameter list is the
concatenation, over the groupings, their clauses and the keys of each clause in
order, of the clause's full values list; its length is the sum over all
clauses of (number of keys) times (number of values). -/
theorem C3_parameters_once_per_key (c : MariadbWhereClauses)
    (hok : c.Stringify.err = none) :
    c.Stringify.values =
        c.Groups.flatMap (fun g =>
          g.Clauses.flatMap (fun cl => cl.Key.flatMap (fun _ => cl.Value))) ∧
      c.Stringify.values.length =
        (c.Groups.map (fun g =>
          (g.Clauses.map (fun cl => cl.Key.length * cl.Value.length)).sum)).sum := by
  have hv := (stringify_err_none_iff c).mp hok
  have hvals : c.Stringify.values = groupingsValues c.Groups := by
    by_cases hne : c.Groups = []
    · rw [stringify_nil c hne, hne]; rfl
    · rw [stringify_valid c hne hv]
  exact ⟨hvals, by rw [hvals, length_groupingsValues]⟩

/-- Witness of C3: a clause with two keys and three values (operator IN)
followed by a one-key clause. -/
theorem C3_parameters_once_per_key_witness :
    (MariadbWhereClauses.Stringify
        ⟨"", [⟨[⟨"", ["a", "b"], "IN", ["x", "y", "z"]⟩, ⟨"", ["c"], "", ["w"]⟩]⟩]⟩).values =
      ["x", "y", "z", "x", "y", "z", "w"] :=
  (C3_parameters_once_per_key
    ⟨"", [⟨[⟨"", ["a", "b"], "IN", ["x", "y", "z"]⟩, ⟨"", ["c"], "", ["w"]⟩]⟩]⟩
    (by decide)).1

/-- C4: `Stringify` returns an error exactly when some clause of some grouping
is invalid (no key; or no value and an operator without the substring `IS N`;
or more than one value and an operator that upper-cased is not `IN`).  A
clause-set without groupings, or whose groupings are all empty, gives no
error. -/
theorem C4_error_iff_invalid_clause (c : MariadbWhereClauses) :
    (c.Stringify.err ≠ none ↔
        ∃ g ∈ c.Groups, ∃ cl ∈ g.Clauses,
          (cl.Key = [] ∨ (cl.Value = [] ∧ ¬ "IS N".data <:+: cl.Operator.data) ∨
            (1 < cl.Value.length ∧ stringsToUpper cl.Operator ≠ "IN"))) ∧
      (c.Groups = [] → c.Stringify.err = none) ∧
      ((∀ g ∈ c.Groups, g.Clauses = []) → c.Stringify.err = none) := by
  refine ⟨?_, ?_, ?_⟩
  · rw [Ne, stringify_err_none_iff, not_allValid_iff]
    rfl
  · intro h
    rw [stringify_nil c h]
  · intro h
    rw [stringify_err_none_iff]
    intro g hg cl hcl
    rw [h g hg] at hcl
    simp at hcl

/-- Witness of C4: the second clause has two values with operator `=`, so the
compilation fails. -/
theorem C4_error_iff_invalid_clause_witness :
    twoValuesSecond.Stringify.err ≠ none :=
  (C4_error_iff_invalid_clause twoValuesSecond).1.mpr
    ⟨⟨[⟨"", ["type"], "=", ["test"]⟩, ⟨"OR", ["ip"], "=", ["a", "b"]⟩]⟩,
      by simp [twoValuesSecond],
      ⟨"OR", ["ip"], "=", ["a", "b"]⟩, by simp, Or.inr (Or.inr (by decide))⟩

/-- C5: when `Stringify` returns an error, the returned text is empty and the
returned parameter list is empty, whatever had been accumulated before. -/
theorem C5_nothing_returned_on_error (c : MariadbWhereClauses)
    (herr : c.Stringify.err ≠ none) :
    c.Stringify.whereSQL = "" ∧ c.Stringify.values = [] := by
  rw [Ne, stringify_err_none_iff] at herr
  obtain ⟨e, he⟩ := stringify_invalid c herr
  rw [he]
  exact ⟨rfl, rfl⟩

/-- Witness of C5: the first clause is valid and has a value, the second
fails validation. -/
theorem C5_nothing_returned_on_error_witness :
    twoValuesSecond.Stringify.err = some "tried to equate more than one value" ∧
      twoValuesSecond.Stringify.whereSQL = "" ∧ twoValuesSecond.Stringify.values = [] :=
  ⟨by decide, C5_nothing_returned_on_error twoValuesSecond (by decide)⟩

/-- C6: a clause-set without groupings compiles to the empty text, no
parameters and no error, whatever its relativity. -/
theorem C6_no_groupings (relativity : String) :
    MariadbWhereClauses.Stringify ⟨relativity, []⟩ = ⟨"", [], none⟩ := by
  rfl

/-- C7: when compilation succeeds, every clause `cl` that is not the first of
its grouping (whichever grouping, the first included) has its relativity
keyword (AND when unset) and one space emitted immediately before its text:
the returned text is the text emitted up to the clause, then the keyword, a
space and the clause's text, then the rest.  A grouping of six clauses whose
clauses after the first have relativity OR compiles to
`( c1 OR c2 OR c3 OR c4 OR c5 OR c6 ) `. -/
theorem C7_relativity_before_later_clauses (c : MariadbWhereClauses)
    (hok : c.Stringify.err = none)
    (gpre gpost : List MariadbWhereGrouping) (g : MariadbWhereGrouping)
    (hg : c.Groups = gpre ++ g :: gpost)
    (cpre cpost : List MariadbWhereClause) (cl : MariadbWhereClause)
    (hcl : g.Clauses = cpre ++ cl :: cpost) (hj : 0 < cpre.length) :
    c.Stringify.whereSQL =
        ("WHERE " ++ groupingsText (relOrAnd c.Relativity) gpre ++
            (if gpre = [] then "" else relOrAnd c.Relativity ++ " ") ++
            "( " ++ clausesText cpre) ++
          (relOrAnd cl.Relativity ++ " " ++ clauseText cl) ++
          (joinedClauses cpost ++ ") " ++ joinedGroupings (relOrAnd c.Relativity) gpost) ∧
      ∀ (R : String) (c1 c2 c3 c4 c5 c6 : MariadbWhereClause),
        (MariadbWhereClauses.Stringify ⟨R, [⟨[c1, c2, c3, c4, c5, c6]⟩]⟩).err = none →
        c2.Relativity = "OR" → c3.Relativity = "OR" → c4.Relativity = "OR" →
        c5.Relativity = "OR" → c6.Relativity = "OR" →
        (MariadbWhereClauses.Stringify ⟨R, [⟨[c1, c2, c3, c4, c5, c6]⟩]⟩).whereSQL =
          "WHERE " ++ ("( " ++ clauseText c1 ++ "OR " ++ clauseText c2 ++ "OR " ++
            clauseText c3 ++ "OR " ++ clauseText c4 ++ "OR " ++ clauseText c5 ++ "OR " ++
            clauseText c6 ++ ") ") := by
  constructor
  · have hne : c.Groups ≠ [] := by rw [hg]; simp
    have hx : cpre ≠ [] := by
      intro h; rw [h] at hj; exact absurd hj (by decide)
    have hlen : g.Clauses.length > 1 := by
      rw [hcl]; simp only [List.length_append, List.length_cons]; omega
    rw [stringify_text c hok hne, hg, groupingsText_append_cons]
    unfold groupingText
    rw [if_pos hlen, hcl, clausesText_append_cons _ _ _ hx]
    simp only [String.append_assoc]
  · intro R c1 c2 c3 c4 c5 c6 h h2 h3 h4 h5 h6
    rw [stringify_text _ h (by simp)]
    have hor : relOrAnd "OR" = "OR" := rfl
    simp only [groupingsText, groupingText, clausesText, joinedClauses, joinedGroupings,
      List.length_cons, List.length_nil, h2, h3, h4, h5, h6, hor]
    simp [String.append_assoc]

/-- Witness of C7 on the `_search` clause-set of the test: the third clause of
the first grouping (`hostname LIKE ?`, relativity OR). -/
theorem C7_relativity_before_later_clauses_witness :
    testSearch.Stringify.whereSQL =
      ("WHERE " ++ "" ++ "" ++ "( " ++
          "json_search(data, 'one', '%m2.local%') IS NOT NULL OR json_search(context, 'one', '%m2.local%') IS NOT NULL ") ++
        ("OR" ++ " " ++ "hostname LIKE ? ") ++
        ("OR ip LIKE ? OR type LIKE ? OR committer LIKE ? " ++ ") " ++ "AND type = ? ") :=
  (C7_relativity_before_later_clauses testSearch (by decide)
    [] [⟨[⟨"", ["type"], "=", ["test"]⟩]⟩] ⟨testSearchClauses⟩ rfl
    [⟨"AND", ["json_search(data, 'one', '%m2.local%')"], "IS NOT NULL", []⟩,
     ⟨"OR", ["json_search(context, 'one', '%m2.local%')"], "IS NOT NULL", []⟩]
    [⟨"OR", ["ip"], "LIKE", ["%m2.local%"]⟩,
     ⟨"OR", ["type"], "LIKE", ["%m2.local%"]⟩,
     ⟨"OR", ["committer"], "LIKE", ["%m2.local%"]⟩]
    ⟨"OR", ["hostname"], "LIKE", ["%m2.local%"]⟩ rfl (by decide)).1

/-- C8: when compilation succeeds, a grouping with more than one clause
contributes `( `, the text of its clauses and `) `; a grouping with one clause
contributes exactly the text of that clause, and an empty grouping contributes
nothing: no parentheses are emitted around them. -/
theorem C8_grouping_parentheses (c : MariadbWhereClauses)
    (hok : c.Stringify.err = none)
    (gpre gpost : List MariadbWhereGrouping) (g : MariadbWhereGrouping)
    (hg : c.Groups = gpre ++ g :: gpost) :
    (1 < g.Clauses.length →
        c.Stringify.whereSQL =
          ("WHERE " ++ groupingsText (relOrAnd c.Relativity) gpre ++
              (if gpre = [] then "" else relOrAnd c.Relativity ++ " ")) ++
            ("( " ++ clausesText g.Clauses ++ ") ") ++
            joinedGroupings (relOrAnd c.Relativity) gpost) ∧
      (∀ cl, g.Clauses = [cl] →
        c.Stringify.whereSQL =
          ("WHERE " ++ groupingsText (relOrAnd c.Relativity) gpre ++
              (if gpre = [] then "" else relOrAnd c.Relativity ++ " ")) ++
            clauseText cl ++
            joinedGroupings (relOrAnd c.Relativity) gpost) ∧
      (g.Clauses = [] →
        c.Stringify.whereSQL =
          ("WHERE " ++ groupingsText (relOrAnd c.Relativity) gpre ++
              (if gpre = [] then "" else relOrAnd c.Relativity ++ " ")) ++
            joinedGroupings (relOrAnd c.Relativity) gpost) := by
  have hne : c.Groups ≠ [] := by rw [hg]; simp
  have htext := stringify_text c hok hne
  rw [hg, groupingsText_append_cons] at htext
  refine ⟨?_, ?_, ?_⟩
  · intro hlen
    rw [htext, groupingText, if_pos hlen]
    simp only [String.append_assoc]
  · intro cl hcl
    rw [htext, groupingText, hcl]
    simp [clausesText, joinedClauses, String.append_assoc]
  · intro hnil
    rw [htext, groupingText, hnil]
    simp [clausesText, String.append_assoc]

/-- Witness of C8 on the `_search` clause-set of the test: the six-clause
grouping is parenthesised, the one-clause grouping after it is not. -/
theorem C8_grouping_parentheses_witness :
    testSearch.Stringify.whereSQL =
        ("WHERE " ++ "" ++ "") ++ ("( " ++ clausesText testSearchClauses ++ ") ") ++
          "AND type = ? " ∧
      testSearch.Stringify.whereSQL =
        ("WHERE " ++ groupingText ⟨testSearchClauses⟩ ++ "AND ") ++ "type = ? " ++ "" :=
  ⟨(C8_grouping_parentheses testSearch (by decide)
      [] [⟨[⟨"", ["type"], "=", ["test"]⟩]⟩] ⟨testSearchClauses⟩ rfl).1 (by decide),
    (C8_grouping_parentheses testSearch (by decide)
      [⟨testSearchClauses⟩] [] ⟨[⟨"", ["type"], "=", ["test"]⟩]⟩ rfl).2.1
        ⟨"", ["type"], "=", ["test"]⟩ rfl⟩

/-- C9: when a clause-set with groupings `g0 .. gn` compiles without error,
the text is `WHERE `, the text of `g0`, and for every later grouping the
clause-set's relativity keyword (AND when unset), a space and the grouping's
text; the keyword is never emitted before the first grouping.  The text of a
grouping is what the clause-set holding that grouping alone compiles to after
`WHERE `. -/
theorem C9_groupings_joined_by_relativity (c : MariadbWhereClauses)
    (hok : c.Stringify.err = none)
    (g0 : MariadbWhereGrouping) (rest : List MariadbWhereGrouping)
    (hg : c.Groups = g0 :: rest) :
    c.Stringify.whereSQL =
        "WHERE " ++ groupingText g0 ++
          String.join (rest.map (fun g => relOrAnd c.Relativity ++ " " ++ groupingText g)) ∧
      ∀ g ∈ c.Groups,
        (MariadbWhereClauses.Stringify ⟨c.Relativity, [g]⟩).whereSQL =
          "WHERE " ++ groupingText g := by
  have hne : c.Groups ≠ [] := by rw [hg]; simp
  have hv := (stringify_err_none_iff c).mp hok
  constructor
  · rw [stringify_text c hok hne, hg, groupingsText]
    have hj : ∀ l : List MariadbWhereGrouping,
        joinedGroupings (relOrAnd c.Relativity) l =
          String.join (l.map (fun g => relOrAnd c.Relativity ++ " " ++ groupingText g)) := by
      intro l
      induction l with
      | nil => rfl
      | cons x xs ih =>
        rw [List.map_cons, string_join_cons, joinedGroupings, ih]
    rw [hj, String.append_assoc]
  · intro g hgm
    have hvg : AllValid [g] := by
      intro x hx
      simp only [List.mem_singleton] at hx
      subst hx
      exact hv x hgm
    rw [stringify_valid ⟨c.Relativity, [g]⟩ (by simp) hvg]
    simp [groupingsText, joinedGroupings]

/-- Witness of C9 on the `_search` clause-set of the test, whose relativity is
unset: AND joins the two groupings. -/
theorem C9_groupings_joined_by_relativity_witness :
    testSearch.Stringify.whereSQL =
      "WHERE " ++ groupingText ⟨testSearchClauses⟩ ++
        String.join
          ([(⟨[⟨"", ["type"], "=", ["test"]⟩]⟩ : MariadbWhereGrouping)].map
            (fun g => relOrAnd testSearch.Relativity ++ " " ++ groupingText g)) :=
  (C9_groupings_joined_by_relativity testSearch (by decide)
    ⟨testSearchClauses⟩ [⟨[⟨"", ["type"], "=", ["test"]⟩]⟩] rfl).1

/-- C10 as stated fails for a clause whose operator is unset: for keys
`[a, b]`, operator `""` and value `x` the code emits `( a = ? OR b = ? )`, with
the defaulted operator `=`, and not the claimed text built from the empty
operator. -/
theorem C10_counterexample_unset_operator :
    (MariadbWhereClauses.Stringify ⟨"", [⟨[⟨"", ["a", "b"], "", ["x"]⟩]⟩]⟩).whereSQL =
        "WHERE ( a = ? OR b = ? )" ∧
      (MariadbWhereClauses.Stringify ⟨"", [⟨[⟨"", ["a", "b"], "", ["x"]⟩]⟩]⟩).whereSQL ≠
        "WHERE " ++ ("( " ++ "a" ++ " " ++ "" ++ " ? " ++ "OR " ++ "b" ++ " " ++ "" ++ " ? " ++ ")") := by
  decide

/-- C10 (amended): for a clause with keys `k1, k2, ..` (more than one),
operator `o` and exactly one value `v`, the key expansion is
`( k1 o' ? OR k2 o' ? ... )` where `o'` is `o`, or `=` when `o` is empty, with
no space after the closing parenthesis and the keys joined by OR whatever the
clause's relativity `r`; `v` is appended to the parameters once per key.  This
holds wherever the clause stands (the body of the clause loop appends this
text after the optional relativity keyword) and for the clause-set holding
only that clause; keys `[a, b]`, operator `=`, value `x` give
`( a = ? OR b = ? )` with `[x, x]`. -/
theorem C10_multi_key_expansion (r k1 k2 o v : String) (rest : List String) :
    (∀ (j : Nat) (b : String) (vs : List String),
        clauseBody j ⟨r, k1 :: k2 :: rest, o, [v]⟩ (b, vs) =
          .ok (b ++ (if b.utf8ByteSize > 8 ∧ j ≥ 1 then relOrAnd r ++ " " else "") ++
              ("( " ++ k1 ++ " " ++ (if o = "" then "=" else o) ++ " ? " ++
                String.join ((k2 :: rest).map
                  (fun k => "OR " ++ k ++ " " ++ (if o = "" then "=" else o) ++ " ? ")) ++ ")"),
            vs ++ List.replicate (rest.length + 2) v)) ∧
      (∀ R : String,
        MariadbWhereClauses.Stringify ⟨R, [⟨[⟨r, k1 :: k2 :: rest, o, [v]⟩]⟩]⟩ =
          ⟨"WHERE " ++
              ("( " ++ k1 ++ " " ++ (if o = "" then "=" else o) ++ " ? " ++
                String.join ((k2 :: rest).map
                  (fun k => "OR " ++ k ++ " " ++ (if o = "" then "=" else o) ++ " ? ")) ++ ")"),
            List.replicate (rest.length + 2) v, none⟩) ∧
      MariadbWhereClauses.Stringify ⟨"", [⟨[⟨"", ["a", "b"], "=", ["x"]⟩]⟩]⟩ =
        ⟨"WHERE ( a = ? OR b = ? )", ["x", "x"], none⟩ := by
  have hvalid : ¬ ClauseInvalid ⟨r, k1 :: k2 :: rest, o, [v]⟩ := by
    simp [ClauseInvalid]
  have htext : clauseText ⟨r, k1 :: k2 :: rest, o, [v]⟩ =
      "( " ++ k1 ++ " " ++ (if o = "" then "=" else o) ++ " ? " ++
        String.join ((k2 :: rest).map
          (fun k => "OR " ++ k ++ " " ++ (if o = "" then "=" else o) ++ " ? ")) ++ ")" := by
    have hop : (if o = "" then "=" else o) = opOrEq o := rfl
    rw [hop, ← orKeysText_one_value (opOrEq o) v (k2 :: rest)]
    simp [clauseText, expansionText, keysText, keyText, placeholderText, String.append_assoc]
  have hvals : clauseValues ⟨r, k1 :: k2 :: rest, o, [v]⟩ =
      List.replicate (rest.length + 2) v := by
    unfold clauseValues
    rw [flatMap_const_singleton]
    simp
  refine ⟨?_, ?_, by decide⟩
  · intro j b vs
    rw [clauseBody_valid j _ b vs hvalid, htext, hvals]
  · intro R
    have hv : AllValid [(⟨[⟨r, k1 :: k2 :: rest, o, [v]⟩]⟩ : MariadbWhereGrouping)] := by
      intro g hg cl hcl
      simp only [List.mem_singleton] at hg
      subst hg
      simp only [List.mem_singleton] at hcl
      subst hcl
      exact hvalid
    rw [stringify_valid _ (by simp) hv]
    simp only [groupingsText, groupingText, clausesText, joinedClauses, joinedGroupings,
      groupingsValues, clausesValues, List.flatMap_cons, List.flatMap_nil, htext, hvals,
      List.length_singleton]
    simp

/-- C11: a clause with one key `k`, an operator `o` whose upper case is `IN`
and more than one value compiles without error; its text is `k o (?,..,?) `
with one `?` per value, separated by single commas without spaces, and its
values are appended to the parameters in order.  This holds wherever the
clause stands and for the clause-set holding only that clause; operator `IN`
with three values gives `k IN (?,?,?) `. -/
theorem C11_multi_value_in (r k o : String) (value : List String)
    (hin : stringsToUpper o = "IN") (hm : 1 < value.length) :
    (∀ (j : Nat) (b : String) (vs : List String),
        clauseBody j ⟨r, [k], o, value⟩ (b, vs) =
          .ok (b ++ (if b.utf8ByteSize > 8 ∧ j ≥ 1 then relOrAnd r ++ " " else "") ++
              (k ++ " " ++ o ++ " (" ++
                String.intercalate "," (List.replicate value.length "?") ++ ") "),
            vs ++ value)) ∧
      (∀ R : String,
        MariadbWhereClauses.Stringify ⟨R, [⟨[⟨r, [k], o, value⟩]⟩]⟩ =
          ⟨"WHERE " ++ (k ++ " " ++ o ++ " (" ++
              String.intercalate "," (List.replicate value.length "?") ++ ") "),
            value, none⟩) ∧
      (∀ a b c : String,
        MariadbWhereClauses.Stringify ⟨"", [⟨[⟨"", [k], "IN", [a, b, c]⟩]⟩]⟩ =
          ⟨"WHERE " ++ k ++ " IN (?,?,?) ", [a, b, c], none⟩) := by
  have hne := stringsToUpper_ne_empty o hin
  have hvalid : ¬ ClauseInvalid ⟨r, [k], o, value⟩ := by
    unfold ClauseInvalid
    simp only [List.cons_ne_self, false_or, not_or, not_and, not_not]
    refine ⟨?_, fun _ => hin⟩
    intro h0
    rw [h0] at hm
    exact absurd hm (by decide)
  have htext : clauseText ⟨r, [k], o, value⟩ =
      k ++ " " ++ o ++ " (" ++
        String.intercalate "," (List.replicate value.length "?") ++ ") " := by
    rw [← commaPlaceholders_eq]
    simp [clauseText, expansionText, keysText, keyText, placeholderText, orKeysText, opOrEq,
      hne, hm, String.append_assoc]
    rfl
  have hvals : clauseValues ⟨r, [k], o, value⟩ = value := by
    simp [clauseValues]
  refine ⟨?_, ?_, ?_⟩
  · intro j b vs
    rw [clauseBody_valid j _ b vs hvalid, htext, hvals]
  · intro R
    rw [stringify_single R _ hvalid, htext, hvals]
  · intro a b c
    have hv3 : ¬ ClauseInvalid ⟨"", [k], "IN", [a, b, c]⟩ := by
      unfold ClauseInvalid
      simp only [List.cons_ne_self, false_or, not_or, not_and, not_not]
      exact ⟨by simp, fun _ => by decide⟩
    rw [stringify_single "" _ hv3]
    simp [clauseText, clauseValues, expansionText, keysText, keyText, placeholderText,
      orKeysText, opOrEq, commaPlaceholders, String.append_assoc]

/-- Witness of C11: the lower-case operator `in` with two values. -/
theorem C11_multi_value_in_witness :
    stringsToUpper "in" = "IN" ∧
      MariadbWhereClauses.Stringify ⟨"", [⟨[⟨"", ["id"], "in", ["1", "2"]⟩]⟩]⟩ =
        ⟨"WHERE id in (?,?) ", ["1", "2"], none⟩ :=
  ⟨by decide,
    (C11_multi_value_in "" "id" "in" ["1", "2"] (by decide) (by decide)).2.1 ""⟩

/-- C12: `MariadbLimit.Stringify` returns the empty string when the limit is 0
whatever the offset, `LIMIT n` when the limit `n` is not 0 and the offset is
0, and `LIMIT n OFFSET m` when both are not 0, the integers written as signed
decimal numerals (a negative one as `-` and the numeral of its absolute
value); it is a total function, without an error result. -/
theorem C12_limit_stringify (limit offset : Int) :
    MariadbLimit.Stringify ⟨0, offset⟩ = "" ∧
      (limit ≠ 0 → MariadbLimit.Stringify ⟨limit, 0⟩ = "LIMIT " ++ fmtInt limit) ∧
      (limit ≠ 0 → offset ≠ 0 →
        MariadbLimit.Stringify ⟨limit, offset⟩ =
          "LIMIT " ++ fmtInt limit ++ " OFFSET " ++ fmtInt offset) ∧
      (∀ n : Nat, fmtInt (-((n + 1 : Nat) : Int)) = "-" ++ fmtInt ((n + 1 : Nat) : Int)) ∧
      MariadbLimit.Stringify ⟨0, 0⟩ = "" ∧
      MariadbLimit.Stringify ⟨0, 5⟩ = "" ∧
      MariadbLimit.Stringify ⟨3, 0⟩ = "LIMIT 3" ∧
      MariadbLimit.Stringify ⟨3, 5⟩ = "LIMIT 3 OFFSET 5" ∧
      MariadbLimit.Stringify ⟨-3, -5⟩ = "LIMIT -3 OFFSET -5" := by
  refine ⟨?_, ?_, ?_, ?_, by decide, by decide, by decide, by decide, by decide⟩
  · simp [MariadbLimit.Stringify]
  · intro hl
    simp [MariadbLimit.Stringify, hl]
  · intro hl ho
    simp [MariadbLimit.Stringify, hl, ho]
  · intro n
    rfl

/-- Witness of C12: limit 12 with offset 40. -/
theorem C12_limit_stringify_witness :
    MariadbLimit.Stringify ⟨12, 40⟩ = "LIMIT " ++ fmtInt 12 ++ " OFFSET " ++ fmtInt 40 :=
  (C12_limit_stringify 12 40).2.2.1 (by decide) (by decide)

/-- C13: a clause with at least one key, no value and an operator containing
`IS N` passes validation, emits `key operator ` for each key without any
placeholder (joined by OR and parenthesised when there is more than one key)
and appends no parameter; `IS NULL`, `IS NOT NULL` and `IS NOTHING` are such
operators. -/
theorem C13_nullity_clause (r k o : String) (ks : List String)
    (hisn : "IS N".data <:+: o.data) :
    (∀ (j : Nat) (b : String) (vs : List String),
        clauseBody j ⟨r, k :: ks, o, []⟩ (b, vs) =
          .ok (b ++ (if b.utf8ByteSize > 8 ∧ j ≥ 1 then relOrAnd r ++ " " else "") ++
              (if ks = [] then k ++ " " ++ o ++ " "
               else "( " ++ k ++ " " ++ o ++ " " ++
                 String.join (ks.map (fun k2 => "OR " ++ k2 ++ " " ++ o ++ " ")) ++ ")"),
            vs)) ∧
      (∀ R : String,
        MariadbWhereClauses.Stringify ⟨R, [⟨[⟨r, k :: ks, o, []⟩]⟩]⟩ =
          ⟨"WHERE " ++
              (if ks = [] then k ++ " " ++ o ++ " "
               else "( " ++ k ++ " " ++ o ++ " " ++
                 String.join (ks.map (fun k2 => "OR " ++ k2 ++ " " ++ o ++ " ")) ++ ")"),
            [], none⟩) ∧
      "IS N".data <:+: "IS NULL".data ∧ "IS N".data <:+: "IS NOT NULL".data ∧
      "IS N".data <:+: "IS NOTHING".data := by
  have hne : o ≠ "" := by
    intro he
    rw [he] at hisn
    exact absurd hisn (by decide)
  have hvalid : ¬ ClauseInvalid ⟨r, k :: ks, o, []⟩ := by
    unfold ClauseInvalid
    simp [hisn]
  have htext : clauseText ⟨r, k :: ks, o, []⟩ =
      (if ks = [] then k ++ " " ++ o ++ " "
       else "( " ++ k ++ " " ++ o ++ " " ++
         String.join (ks.map (fun k2 => "OR " ++ k2 ++ " " ++ o ++ " ")) ++ ")") := by
    rw [← orKeysText_no_value]
    cases ks with
    | nil =>
      simp [clauseText, expansionText, keysText, keyText, placeholderText, orKeysText, opOrEq,
        hne, String.append_assoc]
    | cons k2 rest =>
      simp [clauseText, expansionText, keysText, keyText, placeholderText, opOrEq,
        hne, String.append_assoc]
  have hvals : clauseValues ⟨r, k :: ks, o, []⟩ = [] := by
    simp [clauseValues]
  refine ⟨?_, ?_, by decide, by decide, by decide⟩
  · intro j b vs
    rw [clauseBody_valid j _ b vs hvalid, htext, hvals, List.append_nil]
  · intro R
    rw [stringify_single R _ hvalid, htext, hvals]

/-- Witness of C13: two keys with the operator `IS NOTHING`. -/
theorem C13_nullity_clause_witness :
    MariadbWhereClauses.Stringify ⟨"", [⟨[⟨"", ["a", "b"], "IS NOTHING", []⟩]⟩]⟩ =
      ⟨"WHERE ( a IS NOTHING OR b IS NOTHING )", [], none⟩ :=
  (C13_nullity_clause "" "a" "IS NOTHING" ["b"] (by decide)).2.1 ""

/-- C14: a clause-set whose only clause has no key fails with the error
`incomplete WHERE argument`, whatever the relativity, the operator and the
values of the clause. -/
theorem C14_no_key_incomplete (R r o : String) (value : List String) :
    MariadbWhereClauses.Stringify ⟨R, [⟨[⟨r, [], o, value⟩]⟩]⟩ =
      ⟨"", [], some "incomplete WHERE argument"⟩ := by
  simp [MariadbWhereClauses.Stringify, groupLoop, clauseLoop, clauseBody]

/-- C15 as stated fails for a clause without keys: with two values and the
operator `=` the error is `incomplete WHERE argument`, not the
more-than-one-value error. -/
theorem C15_counterexample_no_key :
    (MariadbWhereClauses.Stringify ⟨"", [⟨[⟨"", [], "=", ["a", "b"]⟩]⟩]⟩).err =
        some "incomplete WHERE argument" ∧
      (MariadbWhereClauses.Stringify ⟨"", [⟨[⟨"", [], "=", ["a", "b"]⟩]⟩]⟩).err ≠
        some "tried to equate more than one value" := by
  decide

/-- C15 (amended): a clause-set whose only clause has at least one key,
exactly two values and the operator `=` fails with the error
`tried to equate more than one value`, whatever the keys and the relativity. -/
theorem C15_two_values_equal (R r k v1 v2 : String) (ks : List String) :
    MariadbWhereClauses.Stringify ⟨R, [⟨[⟨r, k :: ks, "=", [v1, v2]⟩]⟩]⟩ =
      ⟨"", [], some "tried to equate more than one value"⟩ := by
  have hup : stringsToUpper "=" ≠ "IN" := by decide
  simp [MariadbWhereClauses.Stringify, groupLoop, clauseLoop, clauseBody, hup]

/-- C18: `ErrorResponse.Error` returns the decimal numeral of the code, `: `
and the message; code 500 with message `testing` gives `500: testing`. -/
theorem C18_error_response (code : Int) (message : String) :
    ErrorResponse.Error ⟨code, message⟩ = fmtInt code ++ ": " ++ message ∧
      ErrorResponse.Error ⟨500, "testing"⟩ = "500: testing" ∧
      ErrorResponse.Error ⟨-1, "x"⟩ = "-1: x" := by
  exact ⟨rfl, by decide, by decide⟩

/-- C16 as stated fails: a relativity given in lower case is emitted in lower
case, both between the groupings (`or`) and between the clauses of a grouping
(`and`). -/
theorem C16_counterexample_lower_case :
    lowerCaseRelativity.Stringify.err = none ∧
      lowerCaseRelativity.Stringify.whereSQL = "WHERE ( a = ? and b = ? ) or c = ? " ∧
      lowerCaseRelativity.Stringify.whereSQL ≠ "WHERE ( a = ? AND b = ? ) OR c = ? " := by
  decide

/-- C16 (amended): when compilation succeeds, the joiner emitted before a
grouping of index above 0 is the clause-set's relativity exactly as the caller
gave it, and the joiner emitted before a clause of index above 0 is that
clause's relativity exactly as given; only an unset relativity is replaced, by
the upper-case `AND`.  A relativity `or` or `and` is emitted as `or` or
`and`. -/
theorem C16_relativity_emitted_as_given (c : MariadbWhereClauses)
    (hok : c.Stringify.err = none)
    (gpre gpost : List MariadbWhereGrouping) (g : MariadbWhereGrouping)
    (hg : c.Groups = gpre ++ g :: gpost) :
    (gpre ≠ [] →
        c.Stringify.whereSQL =
          ("WHERE " ++ groupingsText (relOrAnd c.Relativity) gpre) ++
            ((if c.Relativity = "" then "AND" else c.Relativity) ++ " ") ++
            (groupingText g ++ joinedGroupings (relOrAnd c.Relativity) gpost)) ∧
      (∀ (cpre cpost : List MariadbWhereClause) (cl : MariadbWhereClause),
        g.Clauses = cpre ++ cl :: cpost → cpre ≠ [] →
        c.Stringify.whereSQL =
          ("WHERE " ++ groupingsText (relOrAnd c.Relativity) gpre ++
              (if gpre = [] then "" else relOrAnd c.Relativity ++ " ") ++
              "( " ++ clausesText cpre) ++
            ((if cl.Relativity = "" then "AND" else cl.Relativity) ++ " ") ++
            (clauseText cl ++ joinedClauses cpost ++ ") " ++
              joinedGroupings (relOrAnd c.Relativity) gpost)) := by
  have hne : c.Groups ≠ [] := by rw [hg]; simp
  have htext := stringify_text c hok hne
  rw [hg, groupingsText_append_cons] at htext
  constructor
  · intro hpre
    rw [htext, if_neg hpre]
    simp only [relOrAnd, String.append_assoc]
  · intro cpre cpost cl hcl hx
    have hlen : g.Clauses.length > 1 := by
      rw [hcl]
      cases cpre with
      | nil => exact absurd rfl hx
      | cons x xs => simp only [List.length_append, List.length_cons]; omega
    rw [htext, groupingText, if_pos hlen, hcl, clausesText_append_cons _ _ _ hx]
    simp only [relOrAnd, String.append_assoc]

/-- Witness of C16: the clause-set with relativity `or` whose first grouping
holds a clause with relativity `and`. -/
theorem C16_relativity_emitted_as_given_witness :
    lowerCaseRelativity.Stringify.whereSQL =
        ("WHERE " ++ "( a = ? and b = ? ) ") ++ ("or" ++ " ") ++ ("c = ? " ++ "") ∧
      lowerCaseRelativity.Stringify.whereSQL =
        ("WHERE " ++ "" ++ "" ++ "( " ++ "a = ? ") ++ ("and" ++ " ") ++
          ("b = ? " ++ "" ++ ") " ++ "or c = ? ") :=
  ⟨(C16_relativity_emitted_as_given lowerCaseRelativity (by decide)
      [⟨[⟨"", ["a"], "=", ["1"]⟩, ⟨"and", ["b"], "=", ["2"]⟩]⟩] []
      ⟨[⟨"", ["c"], "=", ["3"]⟩]⟩ rfl).1 (by simp),
    (C16_relativity_emitted_as_given lowerCaseRelativity (by decide)
      [] [⟨[⟨"", ["c"], "=", ["3"]⟩]⟩]
      ⟨[⟨"", ["a"], "=", ["1"]⟩, ⟨"and", ["b"], "=", ["2"]⟩]⟩ rfl).2
      [⟨"", ["a"], "=", ["1"]⟩] [] ⟨"and", ["b"], "=", ["2"]⟩ rfl (by simp)⟩

/-- C20: when some clause is invalid, the error returned is the one of the
first invalid clause in traversal order (groupings in order, clauses in order
within a grouping); for that clause it is `incomplete WHERE argument` when its
keys are empty or its values are empty without an operator containing `IS N`,
and `tried to equate more than one value` otherwise. -/
theorem C20_first_invalid_clause_error (c : MariadbWhereClauses)
    (pre post : List MariadbWhereClause) (cl : MariadbWhereClause)
    (hsplit : c.Groups.flatMap (fun g => g.Clauses) = pre ++ cl :: post)
    (hpre : ∀ x ∈ pre, ¬ ClauseInvalid x) (hcl : ClauseInvalid cl) :
    c.Stringify =
      ⟨"", [],
        some (if cl.Key = [] ∨ (cl.Value = [] ∧ ¬ "IS N".data <:+: cl.Operator.data) then
          "incomplete WHERE argument" else "tried to equate more than one value")⟩ := by
  apply stringify_of_err_some
  have hall : allClauses c.Groups = pre ++ cl :: post := hsplit
  rw [stringify_err, hall, firstError_append, (firstError_eq_none_iff pre).mpr hpre, firstError]
  unfold clauseError
  split_ifs with h1 h2
  · rfl
  · rfl
  · exact absurd hcl (by
      rintro (h | h | h)
      · exact h1 (Or.inl h)
      · exact h1 (Or.inr h)
      · exact h2 h)

/-- Witness of C20: the first grouping is valid; in the second grouping the
second clause has two values with `=` and the third has no key, so the error is
the one of the second clause. -/
theorem C20_first_invalid_clause_error_witness :
    MariadbWhereClauses.Stringify
        ⟨"", [⟨[⟨"", ["a"], "=", ["1"]⟩]⟩,
          ⟨[⟨"", ["b"], "", ["2"]⟩, ⟨"", ["c"], "=", ["3", "4"]⟩, ⟨"", [], "=", ["5"]⟩]⟩]⟩ =
      ⟨"", [], some "tried to equate more than one value"⟩ :=
  C20_first_invalid_clause_error
    ⟨"", [⟨[⟨"", ["a"], "=", ["1"]⟩]⟩,
      ⟨[⟨"", ["b"], "", ["2"]⟩, ⟨"", ["c"], "=", ["3", "4"]⟩, ⟨"", [], "=", ["5"]⟩]⟩]⟩
    [⟨"", ["a"], "=", ["1"]⟩, ⟨"", ["b"], "", ["2"]⟩] [⟨"", [], "=", ["5"]⟩]
    ⟨"", ["c"], "=", ["3", "4"]⟩ rfl
    (by
      intro x hx
      simp only [List.mem_cons, List.mem_singleton, List.not_mem_nil, or_false] at hx
      rcases hx with rfl | rfl <;> decide)
    (by decide)

/-- C19: filling in the defaults beforehand changes nothing: `Stringify`
returns the same text, parameters and error for a clause-set and for the
clause-set in which an empty clause-set relativity is replaced by `AND`, and
in every clause an empty relativity by `AND` and an empty operator by `=`. -/
theorem C19_default_filling_transparent (c : MariadbWhereClauses) :
    c.Stringify =
      MariadbWhereClauses.Stringify
        ⟨if c.Relativity = "" then "AND" else c.Relativity,
          c.Groups.map (fun g =>
            ⟨g.Clauses.map (fun cl =>
              { cl with
                Relativity := if cl.Relativity = "" then "AND" else cl.Relativity,
                Operator := if cl.Operator = "" then "=" else cl.Operator })⟩)⟩ := by
  show c.Stringify = (fillDefaults c).Stringify
  have herr : (fillDefaults c).Stringify.err = c.Stringify.err := by
    rw [stringify_err, stringify_err, allClauses_fillDefaults, firstError_map_fillClause]
  cases he : c.Stringify.err with
  | some e =>
    rw [stringify_of_err_some c e he, stringify_of_err_some (fillDefaults c) e (herr.trans he)]
  | none =>
    have hv := (stringify_err_none_iff c).mp he
    have hv2 := (stringify_err_none_iff (fillDefaults c)).mp (herr.trans he)
    by_cases hne : c.Groups = []
    · rw [stringify_nil c hne, stringify_nil (fillDefaults c) (by simp [fillDefaults, hne])]
    · rw [stringify_valid c hne hv,
        stringify_valid (fillDefaults c) (by simp [fillDefaults, hne]) hv2]
      simp only [fillDefaults, groupingsText_fill, groupingsValues_fill, relOrAnd_idem]

/-- C17: a call of `Stringify` leaves the caller's clause-set unchanged: the
defaults are assigned to the receiver's own relativity and to the range
variable `clause`, so unset fields of the caller stay unset.  The call returns
the results of `Stringify`, and compiling the clause-set the caller holds
after the call returns the same text, the same parameters and the same error.
On a clause-set with every relativity and operator unset, the receiver's
relativity and the range variable end the call with the defaults `AND` and `=`
filled in, while the clause-set of the caller is as before. -/
theorem C17_caller_unchanged (c : MariadbWhereClauses) :
    (stringifyCall c).1.caller = c ∧ (stringifyCall c).2 = c.Stringify ∧
      (stringifyCall (stringifyCall c).1.caller).2 = (stringifyCall c).2 ∧
      ((stringifyCall allUnset).1.receiverRelativity = "AND" ∧
        (stringifyCall allUnset).1.clause = ⟨"AND", ["b"], "=", ["2"]⟩ ∧
        (stringifyCall allUnset).1.caller =
          ⟨"", [⟨[⟨"", ["a"], "", ["1"]⟩]⟩, ⟨[⟨"", ["b"], "", ["2"]⟩]⟩]⟩ ∧
        (stringifyCall allUnset).2 = ⟨"WHERE a = ? AND b = ? ", ["1", "2"], none⟩) := by
  have h := stringifyCall_spec c
  refine ⟨h.1, h.2, ?_, by decide⟩
  rw [h.1]

/-- C21: when a clause-set with at least one grouping compiles without error,
the returned text begins with `WHERE `; the clause-set whose single grouping
has no clauses compiles without error to exactly `WHERE ` with no
parameters. -/
theorem C21_text_begins_with_where (c : MariadbWhereClauses)
    (hne : c.Groups ≠ []) (hok : c.Stringify.err = none) :
    "WHERE ".data <+: c.Stringify.whereSQL.data ∧
      (∃ rest : String, c.Stringify.whereSQL = "WHERE " ++ rest) ∧
      ∀ R : String,
        MariadbWhereClauses.Stringify ⟨R, [⟨[]⟩]⟩ = ⟨"WHERE ", [], none⟩ := by
  have htext := stringify_text c hok hne
  refine ⟨?_, ⟨_, htext⟩, ?_⟩
  · rw [htext, String.data_append]
    exact List.prefix_append _ _
  · intro R
    have hv : AllValid [(⟨[]⟩ : MariadbWhereGrouping)] := by
      intro g hg cl hcl
      simp only [List.mem_singleton] at hg
      subst hg
      simp at hcl
    rw [stringify_valid _ (by simp) hv]
    simp [groupingsText, groupingText, clausesText, joinedGroupings, groupingsValues,
      clausesValues]

/-- Witness of C21 on the `_search` clause-set of the test. -/
theorem C21_text_begins_with_where_witness :
    testSearch.Stringify.err = none ∧ "WHERE ".data <+: testSearch.Stringify.whereSQL.data :=
  ⟨by decide, (C21_text_begins_with_where testSearch (by decide) (by decide)).1⟩

/-- C22: compilation is compositional over groupings.  When two clause-sets
`A` and `B` with the same relativity, each with at least one grouping, compile
without error to `WHERE ` followed by `a` with parameters `va`, and to `WHERE `
followed by `b` with parameters `vb`, the clause-set with that relativity and
the groupings of `A` followed by those of `B` compiles without error to
`WHERE `, `a`, the relativity keyword (AND when unset), a space and `b`, with
parameters `va ++ vb`. -/
theorem C22_compositional_over_groupings (A B : MariadbWhereClauses)
    (a b : String) (va vb : List String)
    (hrel : B.Relativity = A.Relativity)
    (hA1 : A.Groups ≠ []) (hB1 : B.Groups ≠ [])
    (hA : A.Stringify = ⟨"WHERE " ++ a, va, none⟩)
    (hB : B.Stringify = ⟨"WHERE " ++ b, vb, none⟩) :
    MariadbWhereClauses.Stringify ⟨A.Relativity, A.Groups ++ B.Groups⟩ =
      ⟨"WHERE " ++ a ++ (if A.Relativity = "" then "AND" else A.Relativity) ++ " " ++ b,
        va ++ vb, none⟩ := by
  have hvA : AllValid A.Groups := (stringify_err_none_iff A).mp (by rw [hA])
  have hvB : AllValid B.Groups := (stringify_err_none_iff B).mp (by rw [hB])
  rw [stringify_valid A hA1 hvA] at hA
  rw [stringify_valid B hB1 hvB, hrel] at hB
  have ha : groupingsText (relOrAnd A.Relativity) A.Groups = a :=
    string_append_left_cancel _ _ _ (congrArg StringifyResult.whereSQL hA)
  have hb : groupingsText (relOrAnd A.Relativity) B.Groups = b :=
    string_append_left_cancel _ _ _ (congrArg StringifyResult.whereSQL hB)
  have hva : groupingsValues A.Groups = va := congrArg StringifyResult.values hA
  have hvb : groupingsValues B.Groups = vb := congrArg StringifyResult.values hB
  rw [stringify_valid ⟨A.Relativity, A.Groups ++ B.Groups⟩ (by simp [hA1])
    (allValid_append _ _ hvA hvB)]
  rw [groupingsText_append _ _ _ hA1 hB1, groupingsValues_append, ha, hb, hva, hvb]
  simp only [relOrAnd, String.append_assoc]

/-- Witness of C22: a two-clause grouping followed by the grouping of the
basic clause-set of the test, both with unset relativity. -/
theorem C22_compositional_over_groupings_witness :
    MariadbWhereClauses.Stringify
        ⟨"", [⟨[⟨"", ["a"], "=", ["1"]⟩, ⟨"OR", ["b"], "LIKE", ["2"]⟩]⟩] ++ testBasic.Groups⟩ =
      ⟨"WHERE " ++ "( a = ? OR b LIKE ? ) " ++ (if ("" : String) = "" then "AND" else "") ++
          " " ++ "type = ? ",
        ["1", "2"] ++ ["test"], none⟩ :=
  C22_compositional_over_groupings
    ⟨"", [⟨[⟨"", ["a"], "=", ["1"]⟩, ⟨"OR", ["b"], "LIKE", ["2"]⟩]⟩]⟩ testBasic
    "( a = ? OR b LIKE ? ) " "type = ? " ["1", "2"] ["test"]
    rfl (by decide) (by decide) (by decide) (by decide)

end Hostdb
